import Mathlib

/-!
Verification of the m42-shop-etl retrieval engine (`src/rag/vectorSearch.ts`).

This file gives a shallow embedding, over exact rationals, of the retrieval
pipeline implemented in `src/rag/vectorSearch.ts`:

* the filter conditions built by `vectorSearch` and `keywordSearch`,
* the chunk-level vector retrieval query (similarity strictly above
  `threshold`, ordered descending, `OFFSET offset LIMIT limit * 3`),
* the per-product score aggregation (`maxSimilarity`, `avgSimilarity`,
  `combinedScore = max*0.7 + avg*0.3`),
* result assembly (metadata join, silent drop of unresolvable ids),
* the MMR reranker `rerankResults`,
* the lexical retriever `keywordSearch` (ILIKE gate + `GREATEST` of four
  trigram similarities), and
* the hybrid fusion in `hybridSearch`.

External collaborators are modelled as function parameters:
`chunkSim : ProductChunkRow → ℚ` stands for the store-computed cosine
similarity `1 - (embedding <=> queryEmbedding)` of a chunk against the
current query embedding, and `txtSim : String → String → ℚ` stands for the
PostgreSQL `similarity(field, query)` trigram function.  JavaScript `number`
arithmetic is modelled by exact rational arithmetic; the one division whose
denominator can be 0 — the MMR diversity heuristic's `priceDiff / maxPrice`
— is modelled with its IEEE outcomes (`NaN`, `-Infinity`) made explicit,
because they propagate through `Math.max` and the score comparisons and
change the reranker's observable behaviour (see `JsNum` below); every other
division in the pipeline has a provably nonzero denominator.

Theorems `C1_…` through `C10_…` at the end of the file settle the frozen
claims about this code.
-/

/- The rational arithmetic of Batteries is `@[irreducible]`; the concrete
evaluations below (counterexamples and witnesses) need `decide`/`rfl` to
reduce it, so restore the ordinary transparency of these definitions for
this file. -/
attribute [local semireducible] Rat.add Rat.mul Rat.sub Rat.inv Rat.ofScientific

namespace M42

/-- The `availability` PostgreSQL enum of the `products` table. -/
inductive Availability where
  | in_stock | out_of_stock | on_request | preorder | discontinued
deriving DecidableEq, Repr

/-- The `product_type` PostgreSQL enum of the `products` table. -/
inductive ProductType where
  | fashion | furniture | electronics | food | beauty | sports | toys | books | other
deriving DecidableEq, Repr

/-- A row of the `products` table, restricted to the columns selected and
filtered by `vectorSearch` / `keywordSearch`.  Nullable columns are
`Option`s; the `price_numeric` decimal is modelled as an exact rational. -/
structure Product where
  id : String
  shopId : String := ""
  url : String := ""
  name : String
  description : Option String := none
  productType : Option ProductType := none
  category : Option String := none
  subcategory : Option String := none
  priceNumeric : Option ℚ := none
  availability : Option Availability := none
  brand : Option String := none
  claims : List String := []
  specifications : List (String × String) := []
  images : List String := []
  ratingValue : Option ℚ := none
  ratingCount : Option Nat := none
deriving DecidableEq, Repr

/-- A row of the `product_chunks` table (the columns read by the chunk
query; the embedding itself only enters through the external similarity
function and is not stored here). -/
structure ProductChunkRow where
  id : String
  productId : String
  chunkType : Option String := none
  chunkContent : String := ""
  position : Option Nat := none
deriving DecidableEq, Repr

/-- The database state the two retrievers read. -/
structure Store where
  products : List Product
  chunks : List ProductChunkRow
deriving Repr

/-- The `filters` object of `SearchOptions`.  A `priceRange` bound may be
absent at runtime (the code checks `min !== undefined` / `max !== undefined`),
hence each bound is an `Option`. -/
structure SearchFilters where
  shopId : Option String := none
  priceRange : Option (Option ℚ × Option ℚ) := none
  categories : Option (List String) := none
  brands : Option (List String) := none
  availability : Option (List Availability) := none
  productTypes : Option (List ProductType) := none
deriving DecidableEq, Repr

instance : Inhabited SearchFilters := ⟨{}⟩

/-- `SearchOptions`; optional members are `Option`s, with the destructuring
defaults (`limit = 10`, `offset = 0`, `threshold = 0.5`, `filters = {}`,
`includeChunks = false`, `rerank = false`) applied inside the search
functions, as in the source. -/
structure SearchOptions where
  query : String
  limit : Option Nat := none
  offset : Option Nat := none
  threshold : Option ℚ := none
  filters : SearchFilters := {}
  includeChunks : Option Bool := none
  rerank : Option Bool := none
deriving DecidableEq, Repr

/-- The `ChunkResult` interface (the TS cast `chunkType as string` does not
convert a NULL at runtime, so `chunkType` stays optional here). -/
structure ChunkResult where
  chunkId : String
  chunkType : Option String
  content : String
  similarity : ℚ
  position : Nat
deriving DecidableEq, Repr

/-- The `metadata` object literal attached to every `SearchResult`. -/
structure ResultMetadata where
  subcategory : Option String := none
  productType : Option ProductType := none
  availability : Option Availability := none
  claims : List String := []
  specifications : List (String × String) := []
  images : List String := []
  rating : Option (ℚ × Option Nat) := none
deriving DecidableEq, Repr

/-- The `SearchResult` interface. -/
structure SearchResult where
  productId : String
  name : String
  description : Option String := none
  url : String := ""
  price : Option ℚ := none
  brand : Option String := none
  category : Option String := none
  similarity : ℚ
  chunks : Option (List ChunkResult) := none
  metadata : ResultMetadata := {}
deriving DecidableEq, Repr

/-! ## Small helpers shared by the embedding -/

/-- JavaScript `x || d` on an optional number used as a count
(both `undefined` and `0` fall back to the default). -/
def jsOrNat (o : Option Nat) (d : Nat) : Nat :=
  match o with
  | some 0 => d
  | some n => n
  | none => d

/-- SQL `column >= v` on a nullable numeric column: a NULL operand makes the
comparison not hold. -/
def sqlGE (column : Option ℚ) (v : ℚ) : Bool :=
  match column with
  | some x => decide (v ≤ x)
  | none => false

/-- SQL `column <= v` on a nullable numeric column. -/
def sqlLE (column : Option ℚ) (v : ℚ) : Bool :=
  match column with
  | some x => decide (x ≤ v)
  | none => false

/-- SQL `column IN (list)` on a nullable column: NULL is in no list. -/
def sqlIn {α : Type} [DecidableEq α] (column : Option α) (values : List α) : Bool :=
  match column with
  | some x => values.contains x
  | none => false

/-- Does `needle` occur at the head of `hay`? (workhorse for ILIKE). -/
def headMatch : List Char → List Char → Bool
  | _, [] => true
  | [], _ :: _ => false
  | h :: hs, n :: ns => h == n && headMatch hs ns

/-- Does `needle` occur contiguously anywhere in `hay`? -/
def hasSub : List Char → List Char → Bool
  | [], needle => needle.isEmpty
  | h :: t, needle => headMatch (h :: t) needle || hasSub t needle

/-- Characterwise lower-casing (what `String.toLower` computes, stated on
the character list so that it evaluates by reduction). -/
def lowerStr (s : String) : List Char := s.data.map Char.toLower

/-- SQL `field ILIKE '%' || query || '%'` on a nullable text column:
case-insensitive substring containment, false on NULL. -/
def ilike (field : Option String) (query : String) : Bool :=
  match field with
  | some s => hasSub (lowerStr s) (lowerStr query)
  | none => false

/-- Lookup in an insertion-ordered association list (a JS `Map.get`). -/
def assocLookup {α : Type} (m : List (String × α)) (k : String) : Option α :=
  (m.find? fun e => e.1 == k).map (·.2)

/-- Update in an insertion-ordered association list (a JS `Map.set`): an
existing key keeps its position, a new key is appended at the end. -/
def assocSet {α : Type} (m : List (String × α)) (k : String) (v : α) : List (String × α) :=
  match m with
  | [] => [(k, v)]
  | e :: rest => if e.1 == k then (k, v) :: rest else e :: assocSet rest k v

/-- Stable insertion into a list sorted descending by `key`. -/
def insertByDesc {α : Type} (key : α → ℚ) (x : α) : List α → List α
  | [] => [x]
  | y :: ys => if key y ≤ key x then x :: y :: ys else y :: insertByDesc key x ys

/-- Stable sort, descending by `key` (models SQL `ORDER BY … DESC` and the
JS `sort((a, b) => b.score - a.score)` calls). -/
def sortByDesc {α : Type} (key : α → ℚ) : List α → List α
  | [] => []
  | x :: xs => insertByDesc key x (sortByDesc key xs)

/-! ## Filter conditions (`vectorSearch` lines 63–106, `keywordSearch` lines 402–416)

`vectorSearch` pushes one condition per present filter field onto
`filterConditions`; `keywordSearch` builds only the `shopId` and
`priceRange` conditions (its remaining fields are elided behind a
`// ... other filters` comment in the source). -/

/-- The `shopId` and `priceRange` conditions, common to both retrievers.
An array bound is only pushed when the corresponding value is defined. -/
def baseFilterConditions (f : SearchFilters) : List (Product → Bool) :=
  (match f.shopId with
   | some s => [fun p => p.shopId == s]
   | none => []) ++
  (match f.priceRange with
   | some (mn, mx) =>
     (match mn with
      | some m => [fun p => sqlGE p.priceNumeric m]
      | none => []) ++
     (match mx with
      | some m => [fun p => sqlLE p.priceNumeric m]
      | none => [])
   | none => [])

/-- All six conditions built by `vectorSearch` (a present-but-empty array is
falsy via `?.length` and pushes no condition). -/
def vectorFilterConditions (f : SearchFilters) : List (Product → Bool) :=
  baseFilterConditions f ++
  (match f.categories with
   | some cs => if cs.isEmpty then [] else [fun p => sqlIn p.category cs]
   | none => []) ++
  (match f.brands with
   | some bs => if bs.isEmpty then [] else [fun p => sqlIn p.brand bs]
   | none => []) ++
  (match f.availability with
   | some avs => if avs.isEmpty then [] else [fun p => sqlIn p.availability avs]
   | none => []) ++
  (match f.productTypes with
   | some ts => if ts.isEmpty then [] else [fun p => sqlIn p.productType ts]
   | none => [])

/-- The conditions `keywordSearch` actually builds: only `shopId` and
`priceRange` (`// ... other filters` in the source). -/
def keywordFilterConditions (f : SearchFilters) : List (Product → Bool) :=
  baseFilterConditions f

/-! ## Vector retrieval over chunks (`vectorSearch` lines 109–131) -/

/-- Each filter condition is wrapped as
`productId IN (SELECT id FROM products WHERE condition)`. -/
def chunkPassesFilters (prods : List Product) (conds : List (Product → Bool))
    (c : ProductChunkRow) : Bool :=
  conds.all fun cond => prods.any fun p => p.id == c.productId && cond p

/-- The chunk rows satisfying the WHERE clause: cosine similarity strictly
above `threshold`, and every filter condition met through the product
subquery. -/
def matchedChunks (store : Store) (chunkSim : ProductChunkRow → ℚ)
    (f : SearchFilters) (threshold : ℚ) : List ProductChunkRow :=
  store.chunks.filter fun c =>
    decide (threshold < chunkSim c) &&
    chunkPassesFilters store.products (vectorFilterConditions f) c

/-- A selected row of the chunk query, with its computed similarity column. -/
structure ChunkHit where
  productId : String
  chunkId : String
  chunkType : Option String
  chunkContent : String
  position : Option Nat
  similarity : ℚ
deriving DecidableEq, Repr

/-- Project a chunk row to the selected columns. -/
def toChunkHit (chunkSim : ProductChunkRow → ℚ) (c : ProductChunkRow) : ChunkHit :=
  { productId := c.productId, chunkId := c.id, chunkType := c.chunkType,
    chunkContent := c.chunkContent, position := c.position,
    similarity := chunkSim c }

/-- The full chunk query: WHERE, ORDER BY similarity DESC,
OFFSET `offset`, LIMIT `limit * 3`. -/
def chunkHits (store : Store) (chunkSim : ProductChunkRow → ℚ)
    (f : SearchFilters) (threshold : ℚ) (limit offset : Nat) : List ChunkHit :=
  ((sortByDesc (·.similarity)
      ((matchedChunks store chunkSim f threshold).map (toChunkHit chunkSim))).drop
    offset).take (limit * 3)

/-! ## Per-product aggregation (`vectorSearch` lines 133–172) -/

/-- The per-product accumulator value of the `productScores` map. -/
structure ProductScore where
  maxSimilarity : ℚ
  avgSimilarity : ℚ
  chunks : List ChunkResult
deriving DecidableEq, Repr

/-- The `|| { maxSimilarity: 0, avgSimilarity: 0, chunks: [] }` default. -/
def emptyScore : ProductScore := ⟨0, 0, []⟩

/-- One iteration of the aggregation loop: fetch or default the entry,
take the running `Math.max`, push the chunk, recompute the mean. -/
def accumulateChunk (acc : List (String × ProductScore)) (c : ChunkHit) :
    List (String × ProductScore) :=
  let existing := (assocLookup acc c.productId).getD emptyScore
  let maxS := max existing.maxSimilarity c.similarity
  let chunks' := existing.chunks ++
    [⟨c.chunkId, c.chunkType, c.chunkContent, c.similarity, c.position.getD 0⟩]
  let avgS := (chunks'.map (·.similarity)).sum / (chunks'.length : ℚ)
  assocSet acc c.productId ⟨maxS, avgS, chunks'⟩

/-- The `productScores` map after the whole aggregation loop
(insertion-ordered, keyed by `productId`). -/
def productScores (hits : List ChunkHit) : List (String × ProductScore) :=
  hits.foldl accumulateChunk []

/-- `combinedScore: scores.maxSimilarity * 0.7 + scores.avgSimilarity * 0.3`. -/
def combinedScoreOf (s : ProductScore) : ℚ :=
  s.maxSimilarity * (7 / 10) + s.avgSimilarity * (3 / 10)

/-- An entry of `topProductIds`. -/
structure ScoredProduct where
  productId : String
  combinedScore : ℚ
  chunks : List ChunkResult
deriving DecidableEq, Repr

/-- `topProductIds`: combined scores sorted descending, first `limit`. -/
def topProducts (scores : List (String × ProductScore)) (limit : Nat) :
    List ScoredProduct :=
  (sortByDesc (·.combinedScore)
    (scores.map fun e => ⟨e.1, combinedScoreOf e.2, e.2.chunks⟩)).take limit

/-! ## Result assembly (`vectorSearch` lines 178–232) -/

/-- The `productMap.get` lookup (the `products` table is keyed by its
primary key, so `find?` over the table is the map lookup). -/
def findProduct (prods : List Product) (pid : String) : Option Product :=
  prods.find? fun p => p.id == pid

/-- Build one `SearchResult` from a ranked item and its resolved product
(the object literal of lines 209–231). -/
def toSearchResult (includeChunks : Bool) (item : ScoredProduct)
    (product : Product) : SearchResult :=
  { productId := product.id, name := product.name,
    description := product.description, url := product.url,
    price := product.priceNumeric, brand := product.brand,
    category := product.category, similarity := item.combinedScore,
    chunks :=
      if includeChunks then
        some ((sortByDesc (·.similarity) item.chunks).take 3)
      else none,
    metadata :=
      { subcategory := product.subcategory, productType := product.productType,
        availability := product.availability, claims := product.claims,
        specifications := product.specifications, images := product.images,
        rating := product.ratingValue.map fun v => (v, product.ratingCount) } }

/-- `topProductIds.map(item => productMap.get(...) ?? null).filter(Boolean)`:
an unresolvable `productId` becomes `null` and is filtered out. -/
def buildResults (includeChunks : Bool) (prods : List Product)
    (tops : List ScoredProduct) : List SearchResult :=
  tops.filterMap fun item =>
    (findProduct prods item.productId).map (toSearchResult includeChunks item)

/-! ## The MMR reranker (`rerankResults`, lines 248–307)

The only arithmetic of the whole pipeline whose JS evaluation can leave
the ordinary numbers is the price quotient `priceDiff / maxPrice` of the
diversity heuristic: with `maxPrice = 0` IEEE division yields `NaN` (when
`priceDiff = 0`, i.e. both prices are 0 — a price string `"0.00"` is
truthy, so the guard `selected.price && candidate.price` passes) or
`+Infinity` (when `priceDiff > 0`), and these propagate: the pairwise sum
becomes `NaN` resp. `-Infinity`, `Math.max` is `NaN`-poisoning, and a
`NaN` `mmrScore` fails every `mmrScore > bestScore` comparison, so a
`NaN`-scored candidate is never selected and a round in which every
candidate scores `NaN` leaves `bestIndex = -1` and breaks the loop,
dropping the remaining items.  The embedding models this explicitly:
`JsNum` is the value domain of the pairwise similarity, the penalty and
the score are `Option ℚ` with `none` for `NaN`, and `pickBest` returns
`none` exactly in the `bestIndex = -1` case.

The inner `for (let i = 0; ...)` scan keeps the first candidate whose
`mmrScore` strictly exceeds the best so far (`bestScore` starts at
`-Infinity`), i.e. it selects the leftmost candidate attaining the maximal
non-`NaN` score; `pickBest` below computes that same leftmost argmax with
its score and the pool with the winner spliced out. -/

/-- The IEEE outcomes of the pairwise-similarity computation: an ordinary
finite number, `-Infinity` (positive `priceDiff` divided by
`maxPrice = 0`), or `NaN` (the `0/0` of two zero prices). -/
inductive JsNum where
  | num : ℚ → JsNum
  | negInf : JsNum
  | nan : JsNum
deriving DecidableEq, Repr

/-- The pairwise diversity similarity of lines 267–277: `+0.3` on equal
`category` (JS `===`, so two NULLs are equal), `+0.3` on equal `brand`,
plus `0.4 * (1 - priceDiff / maxPrice)` when both prices are present —
with the IEEE special cases of that division when `maxPrice = 0`. -/
def mmrPairSimilarity (selected candidate : SearchResult) : JsNum :=
  let s1 : ℚ := if selected.category == candidate.category then 3 / 10 else 0
  let s2 : ℚ := if selected.brand == candidate.brand then s1 + 3 / 10 else s1
  match selected.price, candidate.price with
  | some pa, some pb =>
    let priceDiff := |pa - pb|
    let maxPrice := max pa pb
    if maxPrice = 0 then
      if priceDiff = 0 then JsNum.nan else JsNum.negInf
    else JsNum.num (s2 + 4 / 10 * (1 - priceDiff / maxPrice))
  | _, _ => JsNum.num s2

/-- One `Math.max` step of the running penalty: the accumulator starts at
the finite `0`, absorbs `-Infinity`, and is poisoned by `NaN` (`none`). -/
def jsMaxAcc : Option ℚ → JsNum → Option ℚ
  | some a, JsNum.num b => some (max a b)
  | some a, JsNum.negInf => some a
  | some _, JsNum.nan => none
  | none, _ => none

/-- `maxSimilarityToSelected`: a running `Math.max` over the already
selected results, started at `0`; `none` is `NaN`. -/
def maxSimilarityToSelected (reranked : List SearchResult)
    (candidate : SearchResult) : Option ℚ :=
  reranked.foldl (fun acc s => jsMaxAcc acc (mmrPairSimilarity s candidate)) (some 0)

/-- `mmrScore = lambda * relevance - (1 - lambda) * maxSimilarityToSelected`;
a `NaN` penalty makes the score `NaN`. -/
def mmrScore (lam : ℚ) (reranked : List SearchResult)
    (candidate : SearchResult) : Option ℚ :=
  (maxSimilarityToSelected reranked candidate).map
    fun p => lam * candidate.similarity - (1 - lam) * p

/-- The `bestScore`/`bestIndex` scan: leftmost candidate attaining the
maximal non-`NaN` `mmrScore`, with its score and the pool with it removed
(`remaining[bestIndex]` / `remaining.splice(bestIndex, 1)`); `none` is the
`bestIndex = -1` case, reached exactly when every candidate scores `NaN`. -/
def pickBest (lam : ℚ) (reranked : List SearchResult) :
    List SearchResult → Option (SearchResult × ℚ × List SearchResult)
  | [] => none
  | c :: rest =>
    match mmrScore lam reranked c, pickBest lam reranked rest with
    | none, none => none
    | none, some (c', s', rest') => some (c', s', c :: rest')
    | some s, none => some (c, s, rest)
    | some s, some (c', s', rest') =>
      if s < s' then some (c', s', c :: rest') else some (c, s, rest)

/-- The `while (remaining.length > 0 && reranked.length < results.length)`
loop; `total` is the length of the original input and the fuel bounds the
iteration count.  A `bestIndex = -1` round (`pickBest = none`) breaks the
loop, silently dropping the still-remaining candidates. -/
def mmrLoop (lam : ℚ) (total : Nat) :
    Nat → List SearchResult → List SearchResult → List SearchResult
  | 0, reranked, _ => reranked
  | fuel + 1, reranked, remaining =>
    if 0 < remaining.length ∧ reranked.length < total then
      match pickBest lam reranked remaining with
      | none => reranked
      | some (c, _, rest) => mmrLoop lam total fuel (reranked ++ [c]) rest
    else reranked

/-- `rerankResults(_query, results, lambda = 0.7)`: seed with the head,
then run the MMR selection loop.  The `lambda` default 0.7 is supplied at
the single call site in `vectorSearchRun`. -/
def rerankResults (_query : String) (results : List SearchResult)
    (lam : ℚ) : List SearchResult :=
  match results with
  | [] => []
  | first :: rest => mmrLoop lam (rest.length + 1) rest.length [first] rest

/-! ## The lexical retriever (`keywordSearch`, lines 396–492) -/

/-- The OR of the four ILIKE conditions in the WHERE clause. -/
def ilikeAnyField (p : Product) (query : String) : Bool :=
  ilike (some p.name) query || ilike p.description query ||
  ilike p.category query || ilike p.brand query

/-- `GREATEST(similarity(name, q), similarity(COALESCE(description, ''), q),
similarity(COALESCE(category, ''), q), similarity(COALESCE(brand, ''), q))`. -/
def keywordScore (txtSim : String → String → ℚ) (query : String)
    (p : Product) : ℚ :=
  max (txtSim p.name query)
    (max (txtSim (p.description.getD "") query)
      (max (txtSim (p.category.getD "") query)
        (txtSim (p.brand.getD "") query)))

/-- The products passing the WHERE clause of `keywordSearch` (ILIKE on one
of the four fields, AND the `shopId` / `priceRange` conditions — the only
filters that function builds). -/
def keywordCandidates (store : Store) (f : SearchFilters) (query : String) :
    List Product :=
  store.products.filter fun p =>
    ilikeAnyField p query && (keywordFilterConditions f).all fun cond => cond p

/-- Build a keyword `SearchResult` row (lines 469–491). -/
def keywordToResult (p : Product) (score : ℚ) : SearchResult :=
  { productId := p.id, name := p.name, description := p.description,
    url := p.url, price := p.priceNumeric, brand := p.brand,
    category := p.category, similarity := score,
    chunks := none,
    metadata :=
      { subcategory := p.subcategory, productType := p.productType,
        availability := p.availability, claims := p.claims,
        specifications := p.specifications, images := p.images,
        rating := p.ratingValue.map fun v => (v, p.ratingCount) } }

/-- `keywordSearch`: score the candidates, ORDER BY similarity DESC,
OFFSET `offset`, LIMIT `limit`, and materialize the rows. -/
def keywordSearchRun (store : Store) (txtSim : String → String → ℚ)
    (opts : SearchOptions) : List SearchResult :=
  let limit := opts.limit.getD 10
  let offset := opts.offset.getD 0
  let scored := (keywordCandidates store opts.filters opts.query).map
    fun p => (p, keywordScore txtSim opts.query p)
  (((sortByDesc (·.2) scored).drop offset).take limit).map
    fun e => keywordToResult e.1 e.2

/-- The scored-candidate stage of `keywordSearchRun`: each WHERE-passing
product paired with its `GREATEST` score. -/
def keywordScored (store : Store) (txtSim : String → String → ℚ)
    (opts : SearchOptions) : List (Product × ℚ) :=
  (keywordCandidates store opts.filters opts.query).map
    fun p => (p, keywordScore txtSim opts.query p)

/-- The `ORDER BY similarity DESC` stage of `keywordSearchRun`. -/
def keywordRanked (store : Store) (txtSim : String → String → ℚ)
    (opts : SearchOptions) : List (Product × ℚ) :=
  sortByDesc (·.2) (keywordScored store txtSim opts)

/-! ## `vectorSearch` end to end (lines 43–245) -/

/-- `vectorSearch(options)`, with the store and the store-computed chunk
similarity as explicit parameters. -/
def vectorSearchRun (store : Store) (chunkSim : ProductChunkRow → ℚ)
    (opts : SearchOptions) : List SearchResult :=
  let limit := opts.limit.getD 10
  let offset := opts.offset.getD 0
  let threshold := opts.threshold.getD (1 / 2)
  let hits := chunkHits store chunkSim opts.filters threshold limit offset
  let tops := topProducts (productScores hits) limit
  if tops.isEmpty then []
  else
    let results := buildResults (opts.includeChunks.getD false) store.products tops
    if opts.rerank.getD false && !results.isEmpty then
      rerankResults opts.query results (7 / 10)
    else results

/-! ## Hybrid fusion (`hybridSearch`, lines 312–366) -/

/-- The state built by the two fusion loops: the `combinedScores` map and
the `resultMap`, both insertion-ordered. -/
def fusedState (vec kw : List SearchResult) (vw kwW : ℚ) :
    List (String × ℚ) × List (String × SearchResult) :=
  kw.foldl
    (fun acc r =>
      (assocSet acc.1 r.productId
        ((assocLookup acc.1 r.productId).getD 0 + r.similarity * kwW),
       if (assocLookup acc.2 r.productId).isSome then acc.2
       else assocSet acc.2 r.productId r))
    (vec.foldl
      (fun (acc : List (String × ℚ) × List (String × SearchResult)) r =>
        (assocSet acc.1 r.productId (r.similarity * vw),
         assocSet acc.2 r.productId r))
      ([], []))

/-- Sort the fused score entries descending, truncate to `limit`, and
materialize each surviving entry from the `resultMap` with its fused
score (`resultMap.get(productId)!`, modelled by `filterMap`). -/
def fuseResults (vec kw : List SearchResult) (vw kwW : ℚ) (limit : Nat) :
    List SearchResult :=
  let st := fusedState vec kw vw kwW
  ((sortByDesc (·.2) st.1).take limit).filterMap fun e =>
    (assocLookup st.2 e.1).map fun r => { r with similarity := e.2 }

/-- `hybridSearch(options & {vectorWeight = 0.7, keywordWeight = 0.3})`:
vector search with `rerank` forced to `false`, keyword search on the same
options, then fusion truncated to `searchOptions.limit || 10`. -/
def hybridSearchRun (store : Store) (chunkSim : ProductChunkRow → ℚ)
    (txtSim : String → String → ℚ) (opts : SearchOptions)
    (vectorWeight keywordWeight : Option ℚ) : List SearchResult :=
  let vw := vectorWeight.getD (7 / 10)
  let kwW := keywordWeight.getD (3 / 10)
  let vectorResults := vectorSearchRun store chunkSim { opts with rerank := some false }
  let keywordResults := keywordSearchRun store txtSim opts
  fuseResults vectorResults keywordResults vw kwW (jsOrNat opts.limit 10)

/-! ## Generic lemmas about the helpers -/

theorem perm_insertByDesc {α : Type} (key : α → ℚ) (x : α) :
    ∀ l : List α, (insertByDesc key x l).Perm (x :: l)
  | [] => List.Perm.refl _
  | y :: ys => by
    simp only [insertByDesc]
    split
    · exact List.Perm.refl _
    · exact ((perm_insertByDesc key x ys).cons y).trans (List.Perm.swap x y ys)

theorem perm_sortByDesc {α : Type} (key : α → ℚ) :
    ∀ l : List α, (sortByDesc key l).Perm l
  | [] => List.Perm.refl _
  | x :: xs => (perm_insertByDesc key x _).trans ((perm_sortByDesc key xs).cons x)

theorem mem_sortByDesc {α : Type} (key : α → ℚ) (l : List α) (a : α) :
    a ∈ sortByDesc key l ↔ a ∈ l :=
  (perm_sortByDesc key l).mem_iff

theorem length_sortByDesc {α : Type} (key : α → ℚ) (l : List α) :
    (sortByDesc key l).length = l.length :=
  (perm_sortByDesc key l).length_eq

theorem pairwise_insertByDesc {α : Type} (key : α → ℚ) (x : α) :
    ∀ l : List α, l.Pairwise (fun a b => key b ≤ key a) →
      (insertByDesc key x l).Pairwise (fun a b => key b ≤ key a)
  | [], _ => by simp [insertByDesc]
  | y :: ys, h => by
    simp only [insertByDesc]
    have h' := List.pairwise_cons.mp h
    split
    · rename_i hle
      refine List.Pairwise.cons ?_ h
      intro b hb
      rcases List.mem_cons.mp hb with rfl | hb
      · exact hle
      · exact le_trans (h'.1 b hb) hle
    · rename_i hgt
      push_neg at hgt
      refine List.Pairwise.cons ?_ (pairwise_insertByDesc key x ys h'.2)
      intro b hb
      rcases List.mem_cons.mp ((perm_insertByDesc key x ys).mem_iff.mp hb) with rfl | hb'
      · exact le_of_lt hgt
      · exact h'.1 b hb'

theorem pairwise_sortByDesc {α : Type} (key : α → ℚ) :
    ∀ l : List α, (sortByDesc key l).Pairwise (fun a b => key b ≤ key a)
  | [] => List.Pairwise.nil
  | x :: xs => pairwise_insertByDesc key x _ (pairwise_sortByDesc key xs)

theorem assocLookup_nil {α : Type} (k : String) :
    assocLookup ([] : List (String × α)) k = none := rfl

theorem assocLookup_cons {α : Type} (e : String × α) (m : List (String × α))
    (k : String) :
    assocLookup (e :: m) k = if e.1 == k then some e.2 else assocLookup m k := by
  simp only [assocLookup, List.find?_cons]
  cases hb : (e.1 == k) with
  | false => simp [hb]
  | true => simp [hb]

theorem assocLookup_assocSet_self {α : Type} (m : List (String × α))
    (k : String) (v : α) : assocLookup (assocSet m k v) k = some v := by
  induction m with
  | nil => simp [assocSet, assocLookup_cons]
  | cons e rest ih =>
    by_cases h : e.1 = k
    · simp [assocSet, h, assocLookup_cons]
    · have hb : (e.1 == k) = false := by simpa using h
      simp only [assocSet, hb, Bool.false_eq_true, if_false, assocLookup_cons]
      exact ih

theorem assocLookup_assocSet_ne {α : Type} (m : List (String × α))
    (k k' : String) (v : α) (h : k' ≠ k) :
    assocLookup (assocSet m k v) k' = assocLookup m k' := by
  induction m with
  | nil =>
    simp [assocSet, assocLookup_cons, assocLookup_nil,
      show (k == k') = false from by simpa using fun e => h e.symm]
  | cons e rest ih =>
    by_cases he : e.1 = k
    · have hb : (e.1 == k) = true := by simpa using he
      have h1 : (k == k') = false := beq_eq_false_iff_ne.mpr fun hkk => h hkk.symm
      have h2 : (e.1 == k') = false := by rw [he]; exact h1
      simp [assocSet, hb, assocLookup_cons, h1, h2]
    · have hb : (e.1 == k) = false := by simpa using he
      simp only [assocSet, hb, Bool.false_eq_true, if_false, assocLookup_cons]
      rw [ih]

theorem assocLookup_isSome_iff {α : Type} (m : List (String × α)) (k : String) :
    (assocLookup m k).isSome ↔ k ∈ m.map (·.1) := by
  induction m with
  | nil => simp [assocLookup_nil]
  | cons e rest ih =>
    rw [assocLookup_cons]
    by_cases he : e.1 = k
    · simp [he]
    · have hb : (e.1 == k) = false := by simpa using he
      simp [hb, ih, Ne.symm he]

theorem assocLookup_mem {α : Type} (m : List (String × α)) (k : String) (v : α)
    (h : assocLookup m k = some v) : (k, v) ∈ m := by
  induction m with
  | nil => simp [assocLookup_nil] at h
  | cons e rest ih =>
    rw [assocLookup_cons] at h
    by_cases he : e.1 = k
    · rw [if_pos (by simpa using he)] at h
      injection h with h2
      have hekv : e = (k, v) := by
        cases e with
        | mk k1 v1 => simp_all
      rw [hekv]
      exact List.mem_cons_self _ _
    · have hb : (e.1 == k) = false := by simpa using he
      rw [if_neg (by simp [hb])] at h
      exact List.mem_cons_of_mem _ (ih h)

theorem foldl_max_init {l : List ℚ} : ∀ a : ℚ, a ≤ l.foldl max a := by
  induction l with
  | nil => intro a; simp
  | cons x xs ih => intro a; exact le_trans (le_max_left a x) (ih (max a x))

theorem foldl_max_of_mem {l : List ℚ} {x : ℚ} (hx : x ∈ l) :
    ∀ a : ℚ, x ≤ l.foldl max a := by
  induction l with
  | nil => cases hx
  | cons y ys ih =>
    intro a
    rw [List.foldl_cons]
    rcases List.mem_cons.mp hx with rfl | hx'
    · exact le_trans (le_max_right a x) (foldl_max_init _)
    · exact ih hx' (max a y)

theorem foldl_max_choice {l : List ℚ} : ∀ a : ℚ, l.foldl max a = a ∨ l.foldl max a ∈ l := by
  induction l with
  | nil => intro a; left; rfl
  | cons x xs ih =>
    intro a
    rcases ih (max a x) with h | h
    · rcases max_choice a x with hm | hm
      · left; rw [List.foldl_cons, h, hm]
      · right; rw [List.foldl_cons, h, hm]; exact List.mem_cons_self x xs
    · right; exact List.mem_cons_of_mem x h

/-! ## Lemmas about the MMR selection loop -/

theorem jsMaxAcc_none (v : JsNum) : jsMaxAcc none v = none := by
  cases v <;> rfl

theorem foldl_jsMaxAcc_none (x : SearchResult) :
    ∀ sel : List SearchResult,
      sel.foldl (fun acc s => jsMaxAcc acc (mmrPairSimilarity s x)) none = none
  | [] => rfl
  | s :: t => by
    rw [List.foldl_cons, jsMaxAcc_none]
    exact foldl_jsMaxAcc_none x t

/-- Characterization of a finite penalty fold: the result dominates the
start value and every finite pairwise similarity, and is attained by one
of them. -/
theorem foldl_jsMaxAcc_some (x : SearchResult) :
    ∀ (sel : List SearchResult) (a p : ℚ),
      sel.foldl (fun acc s => jsMaxAcc acc (mmrPairSimilarity s x)) (some a) = some p →
      a ≤ p ∧
      (∀ s ∈ sel, ∀ v, mmrPairSimilarity s x = JsNum.num v → v ≤ p) ∧
      (p = a ∨ ∃ s ∈ sel, mmrPairSimilarity s x = JsNum.num p)
  | [], a, p, h => by
    injection h with h
    exact ⟨le_of_eq h, fun s hs => absurd hs (List.not_mem_nil s), Or.inl h.symm⟩
  | s₀ :: t, a, p, h => by
    rw [List.foldl_cons] at h
    cases hv : mmrPairSimilarity s₀ x with
    | num b =>
      rw [hv] at h
      have hstep : jsMaxAcc (some a) (JsNum.num b) = some (max a b) := rfl
      rw [hstep] at h
      obtain ⟨h1, h2, h3⟩ := foldl_jsMaxAcc_some x t (max a b) p h
      refine ⟨le_trans (le_max_left a b) h1, ?_, ?_⟩
      · intro s hs v hvv
        rcases List.mem_cons.mp hs with rfl | hs'
        · rw [hv] at hvv
          injection hvv with hvv
          exact hvv ▸ le_trans (le_max_right a b) h1
        · exact h2 s hs' v hvv
      · rcases h3 with h3 | ⟨s, hs, hsv⟩
        · rcases max_choice a b with hm | hm
          · exact Or.inl (by rw [h3, hm])
          · refine Or.inr ⟨s₀, List.mem_cons_self s₀ t, ?_⟩
            rw [hv, h3, hm]
        · exact Or.inr ⟨s, List.mem_cons_of_mem s₀ hs, hsv⟩
    | negInf =>
      rw [hv] at h
      have hstep : jsMaxAcc (some a) JsNum.negInf = some a := rfl
      rw [hstep] at h
      obtain ⟨h1, h2, h3⟩ := foldl_jsMaxAcc_some x t a p h
      refine ⟨h1, ?_, ?_⟩
      · intro s hs v hvv
        rcases List.mem_cons.mp hs with rfl | hs'
        · rw [hv] at hvv
          cases hvv
        · exact h2 s hs' v hvv
      · rcases h3 with h3 | ⟨s, hs, hsv⟩
        · exact Or.inl h3
        · exact Or.inr ⟨s, List.mem_cons_of_mem s₀ hs, hsv⟩
    | nan =>
      rw [hv] at h
      have hstep : jsMaxAcc (some a) JsNum.nan = none := rfl
      rw [hstep, foldl_jsMaxAcc_none] at h
      cases h

/-- The penalty fold is `NaN` exactly when some pairwise similarity is. -/
theorem foldl_jsMaxAcc_none_iff (x : SearchResult) :
    ∀ (sel : List SearchResult) (a : ℚ),
      sel.foldl (fun acc s => jsMaxAcc acc (mmrPairSimilarity s x)) (some a) = none ↔
        ∃ s ∈ sel, mmrPairSimilarity s x = JsNum.nan
  | [], a => by simp
  | s₀ :: t, a => by
    rw [List.foldl_cons]
    cases hv : mmrPairSimilarity s₀ x with
    | num b =>
      have hstep : jsMaxAcc (some a) (JsNum.num b) = some (max a b) := rfl
      rw [hstep, foldl_jsMaxAcc_none_iff x t (max a b)]
      simp [hv]
    | negInf =>
      have hstep : jsMaxAcc (some a) JsNum.negInf = some a := rfl
      rw [hstep, foldl_jsMaxAcc_none_iff x t a]
      simp [hv]
    | nan =>
      have hstep : jsMaxAcc (some a) JsNum.nan = none := rfl
      rw [hstep, foldl_jsMaxAcc_none]
      simp [hv]

theorem maxSimilarityToSelected_none_iff (sel : List SearchResult)
    (x : SearchResult) :
    maxSimilarityToSelected sel x = none ↔
      ∃ s ∈ sel, mmrPairSimilarity s x = JsNum.nan :=
  foldl_jsMaxAcc_none_iff x sel 0

/-- The pairwise similarity is `NaN` exactly for two zero prices. -/
theorem mmrPairSimilarity_nan_iff (s x : SearchResult) :
    mmrPairSimilarity s x = JsNum.nan ↔
      (s.price = some 0 ∧ x.price = some 0) := by
  cases hp : s.price with
  | none => simp [mmrPairSimilarity, hp]
  | some pa =>
    cases hq : x.price with
    | none => simp [mmrPairSimilarity, hp, hq]
    | some pb =>
      simp only [mmrPairSimilarity, hp, hq, Option.some.injEq]
      by_cases hm : max pa pb = 0
      · by_cases hd : |pa - pb| = 0
        · have hab : pa = pb := sub_eq_zero.mp (abs_eq_zero.mp hd)
          have hpa : pa = 0 := by
            rw [hab] at hm ⊢
            simpa using hm
          simp [hm, hd, hpa, ← hab, hpa ▸ hab.symm]
        · simp only [hm, if_true, hd, Bool.false_eq_true, if_false]
          constructor
          · intro hcon
            cases hcon
          · rintro ⟨rfl, rfl⟩
            exact absurd (by simp) hd
      · simp only [hm, if_false]
        constructor
        · intro hcon
          cases hcon
        · rintro ⟨rfl, rfl⟩
          exact absurd (by simp) hm

/-- A candidate with no `NaN` pairwise similarity to the selected results
has an ordinary (non-`NaN`) `mmrScore`. -/
theorem mmrScore_isSome_of_no_nan (lam : ℚ) (sel : List SearchResult)
    (x : SearchResult)
    (h : ∀ s ∈ sel, mmrPairSimilarity s x ≠ JsNum.nan) :
    (mmrScore lam sel x).isSome = true := by
  cases hp : maxSimilarityToSelected sel x with
  | some p => simp [mmrScore, hp]
  | none =>
    obtain ⟨s, hs, hnan⟩ := (maxSimilarityToSelected_none_iff sel x).mp hp
    exact absurd hnan (h s hs)

/-- `bestIndex = -1` means every candidate's `mmrScore` was `NaN`. -/
theorem pickBest_none_scores (lam : ℚ) (sel : List SearchResult) :
    ∀ rem, pickBest lam sel rem = none →
      ∀ x ∈ rem, mmrScore lam sel x = none
  | [], _, x, hx => by cases hx
  | a :: t, h, x, hx => by
    cases hsa : mmrScore lam sel a with
    | some s =>
      exfalso
      cases hpb : pickBest lam sel t with
      | none =>
        simp only [pickBest, hsa, hpb] at h
        exact Option.noConfusion h
      | some p =>
        obtain ⟨c', s', rest'⟩ := p
        simp only [pickBest, hsa, hpb] at h
        split at h <;> exact Option.noConfusion h
    | none =>
      cases hpb : pickBest lam sel t with
      | none =>
        rcases List.mem_cons.mp hx with rfl | hx'
        · exact hsa
        · exact pickBest_none_scores lam sel t hpb x hx'
      | some p =>
        obtain ⟨c', s', rest'⟩ := p
        exfalso
        simp only [pickBest, hsa, hpb] at h
        exact Option.noConfusion h

/-- If some candidate has a non-`NaN` score, the scan finds a winner. -/
theorem pickBest_isSome_of_finite (lam : ℚ) (sel : List SearchResult) :
    ∀ rem, (∃ x ∈ rem, (mmrScore lam sel x).isSome = true) →
      (pickBest lam sel rem).isSome = true
  | [], h => by
    obtain ⟨x, hx, _⟩ := h
    cases hx
  | a :: t, h => by
    cases hsa : mmrScore lam sel a with
    | some s =>
      cases hpb : pickBest lam sel t with
      | none => simp [pickBest, hsa, hpb]
      | some p =>
        obtain ⟨c', s', rest'⟩ := p
        by_cases hlt : s < s' <;> simp [pickBest, hsa, hpb, hlt]
    | none =>
      cases hpb : pickBest lam sel t with
      | some p =>
        obtain ⟨c', s', rest'⟩ := p
        simp [pickBest, hsa, hpb]
      | none =>
        exfalso
        obtain ⟨x, hx, hxs⟩ := h
        rcases List.mem_cons.mp hx with rfl | hx'
        · rw [hsa] at hxs
          cases hxs
        · rw [pickBest_none_scores lam sel t hpb x hx'] at hxs
          cases hxs

/-- The selected candidate together with the shrunken pool is a permutation
of the pool: a selection step moves one element, losing and inventing
nothing. -/
theorem pickBest_perm (lam : ℚ) (sel : List SearchResult) :
    ∀ rem c sc rest, pickBest lam sel rem = some (c, sc, rest) →
      rem.Perm (c :: rest)
  | [], c, sc, rest, h => by cases h
  | a :: t, c, sc, rest, h => by
    cases hsa : mmrScore lam sel a with
    | none =>
      cases hpb : pickBest lam sel t with
      | none =>
        simp only [pickBest, hsa, hpb] at h
        exact Option.noConfusion h
      | some p =>
        obtain ⟨c', s', rest'⟩ := p
        simp only [pickBest, hsa, hpb, Option.some.injEq, Prod.mk.injEq] at h
        obtain ⟨rfl, rfl, rfl⟩ := h
        exact ((pickBest_perm lam sel t c' s' rest' hpb).cons a).trans
          (List.Perm.swap c' a rest')
    | some s =>
      cases hpb : pickBest lam sel t with
      | none =>
        simp only [pickBest, hsa, hpb, Option.some.injEq, Prod.mk.injEq] at h
        obtain ⟨rfl, rfl, rfl⟩ := h
        exact List.Perm.refl _
      | some p =>
        obtain ⟨c', s', rest'⟩ := p
        simp only [pickBest, hsa, hpb] at h
        split at h <;>
          simp only [Option.some.injEq, Prod.mk.injEq] at h <;>
            obtain ⟨rfl, rfl, rfl⟩ := h
        · exact ((pickBest_perm lam sel t c' s' rest' hpb).cons a).trans
            (List.Perm.swap c' a rest')
        · exact List.Perm.refl _

/-- The selected candidate is drawn from the pool, its score is its own
(non-`NaN`) `mmrScore`, and that score is maximal among the pool's
non-`NaN` scores (`NaN`-scored candidates are never selected). -/
theorem pickBest_maximal (lam : ℚ) (sel : List SearchResult) :
    ∀ rem c sc rest, pickBest lam sel rem = some (c, sc, rest) →
      c ∈ rem ∧ mmrScore lam sel c = some sc ∧
      ∀ x ∈ rem, ∀ sx, mmrScore lam sel x = some sx → sx ≤ sc
  | [], c, sc, rest, h => by cases h
  | a :: t, c, sc, rest, h => by
    cases hsa : mmrScore lam sel a with
    | none =>
      cases hpb : pickBest lam sel t with
      | none =>
        simp only [pickBest, hsa, hpb] at h
        exact Option.noConfusion h
      | some p =>
        obtain ⟨c', s', rest'⟩ := p
        simp only [pickBest, hsa, hpb, Option.some.injEq, Prod.mk.injEq] at h
        obtain ⟨rfl, rfl, rfl⟩ := h
        obtain ⟨ih1, ih2, ih3⟩ := pickBest_maximal lam sel t c' s' rest' hpb
        refine ⟨List.mem_cons_of_mem a ih1, ih2, ?_⟩
        intro x hx sx hsx
        rcases List.mem_cons.mp hx with rfl | hx'
        · rw [hsa] at hsx
          cases hsx
        · exact ih3 x hx' sx hsx
    | some s =>
      cases hpb : pickBest lam sel t with
      | none =>
        simp only [pickBest, hsa, hpb, Option.some.injEq, Prod.mk.injEq] at h
        obtain ⟨rfl, rfl, rfl⟩ := h
        refine ⟨List.mem_cons_self a t, hsa, ?_⟩
        intro x hx sx hsx
        rcases List.mem_cons.mp hx with rfl | hx'
        · rw [hsa] at hsx
          injection hsx with hsx
          exact le_of_eq hsx.symm
        · rw [pickBest_none_scores lam sel t hpb x hx'] at hsx
          cases hsx
      | some p =>
        obtain ⟨c', s', rest'⟩ := p
        obtain ⟨ih1, ih2, ih3⟩ := pickBest_maximal lam sel t c' s' rest' hpb
        simp only [pickBest, hsa, hpb] at h
        by_cases hlt : s < s'
        · rw [if_pos hlt] at h
          simp only [Option.some.injEq, Prod.mk.injEq] at h
          obtain ⟨rfl, rfl, rfl⟩ := h
          refine ⟨List.mem_cons_of_mem a ih1, ih2, ?_⟩
          intro x hx sx hsx
          rcases List.mem_cons.mp hx with rfl | hx'
          · rw [hsa] at hsx
            injection hsx with hsx
            exact hsx ▸ le_of_lt hlt
          · exact ih3 x hx' sx hsx
        · rw [if_neg hlt] at h
          push_neg at hlt
          simp only [Option.some.injEq, Prod.mk.injEq] at h
          obtain ⟨rfl, rfl, rfl⟩ := h
          refine ⟨List.mem_cons_self a t, hsa, ?_⟩
          intro x hx sx hsx
          rcases List.mem_cons.mp hx with rfl | hx'
          · rw [hsa] at hsx
            injection hsx with hsx
            exact le_of_eq hsx.symm
          · exact le_trans (ih3 x hx' sx hsx) hlt

/-- The `price = "0"` (truthy) results whose pairing produces the `NaN`
division. -/
def isZeroPriced (r : SearchResult) : Bool := decide (r.price = some 0)

/-- The loop invariant: with enough fuel, `total` equal to the final
length, and at most one zero-priced result in play (so that no
selected–candidate pair divides `0/0`), every round finds a winner and the
loop returns a permutation of `reranked ++ remaining`. -/
theorem mmrLoop_perm (lam : ℚ) (total : Nat) :
    ∀ fuel reranked remaining, remaining.length ≤ fuel →
      reranked.length + remaining.length = total →
      (reranked ++ remaining).countP isZeroPriced ≤ 1 →
      (mmrLoop lam total fuel reranked remaining).Perm (reranked ++ remaining) := by
  intro fuel
  induction fuel with
  | zero =>
    intro reranked remaining hlen _ _
    have : remaining = [] := List.length_eq_zero.mp (Nat.le_zero.mp hlen)
    subst this
    simp [mmrLoop]
  | succ n ih =>
    intro reranked remaining hlen htot hcnt
    cases remaining with
    | nil => simp [mmrLoop]
    | cons a t =>
      have hguard : 0 < (a :: t).length ∧ reranked.length < total := by
        refine ⟨by simp, ?_⟩
        simp only [List.length_cons] at htot
        omega
      rw [mmrLoop, if_pos hguard]
      have hfin : ∀ x ∈ (a :: t), (mmrScore lam reranked x).isSome = true := by
        intro x hx
        refine mmrScore_isSome_of_no_nan lam reranked x ?_
        intro s hs hnan
        obtain ⟨hs0, hx0⟩ := (mmrPairSimilarity_nan_iff s x).mp hnan
        have hcs : 0 < reranked.countP isZeroPriced :=
          List.countP_pos_iff.mpr ⟨s, hs, by simp [isZeroPriced, hs0]⟩
        have hcx : 0 < (a :: t).countP isZeroPriced :=
          List.countP_pos_iff.mpr ⟨x, hx, by simp [isZeroPriced, hx0]⟩
        rw [List.countP_append] at hcnt
        omega
      cases hp : pickBest lam reranked (a :: t) with
      | none =>
        have hps := pickBest_isSome_of_finite lam reranked (a :: t)
          ⟨a, List.mem_cons_self a t, hfin a (List.mem_cons_self a t)⟩
        rw [hp] at hps
        cases hps
      | some p =>
        obtain ⟨c, sc, rest⟩ := p
        have hperm := pickBest_perm lam reranked (a :: t) c sc rest hp
        have hlen' : rest.length ≤ n := by
          have hl := hperm.length_eq
          simp only [List.length_cons] at hl hlen
          omega
        have htot' : (reranked ++ [c]).length + rest.length = total := by
          have hl := hperm.length_eq
          simp only [List.length_cons, List.length_append,
            List.length_nil] at hl htot ⊢
          omega
        have hcnt' : ((reranked ++ [c]) ++ rest).countP isZeroPriced ≤ 1 := by
          have hp1 : ((reranked ++ [c]) ++ rest).Perm (reranked ++ (a :: t)) := by
            rw [List.append_assoc]
            exact List.Perm.append_left reranked
              (List.Perm.symm (hperm.trans (List.Perm.refl _)))
          rw [hp1.countP_eq]
          exact hcnt
        refine (ih (reranked ++ [c]) rest hlen' htot' hcnt').trans ?_
        rw [List.append_assoc]
        exact List.Perm.append_left reranked hperm.symm

/-! ## Characterization of the per-product aggregation -/

/-- The similarities of a product's retrieved chunks, in retrieval order. -/
def chunkSimsOf (hits : List ChunkHit) (pid : String) : List ℚ :=
  (hits.filter fun h => h.productId == pid).map (·.similarity)

theorem chunkSimsOf_append (l : List ChunkHit) (a : ChunkHit) (pid : String) :
    chunkSimsOf (l ++ [a]) pid =
      chunkSimsOf l pid ++ (if a.productId == pid then [a.similarity] else []) := by
  simp only [chunkSimsOf, List.filter_append, List.map_append]
  congr 1
  cases h : (a.productId == pid) <;> simp [List.filter, h]

/-- What the aggregation loop computes for each product: the chunks of that
product in order, a running maximum **started at 0**, and the arithmetic
mean of the chunk similarities. -/
theorem productScores_lookup (hits : List ChunkHit) (pid : String) :
    (∀ e, assocLookup (productScores hits) pid = some e →
      e.chunks.map (·.similarity) = chunkSimsOf hits pid ∧
      e.maxSimilarity = (chunkSimsOf hits pid).foldl max 0 ∧
      e.avgSimilarity =
        (chunkSimsOf hits pid).sum / ((chunkSimsOf hits pid).length : ℚ) ∧
      chunkSimsOf hits pid ≠ []) ∧
    (assocLookup (productScores hits) pid = none → chunkSimsOf hits pid = []) := by
  induction hits using List.reverseRecOn with
  | nil =>
    constructor
    · intro e he
      simp [productScores, assocLookup_nil] at he
    · intro _
      rfl
  | append_singleton l a ih =>
    have hps : productScores (l ++ [a]) = accumulateChunk (productScores l) a := by
      simp [productScores, List.foldl_append]
    by_cases hpa : a.productId = pid
    · subst hpa
      have hbt : (a.productId == a.productId) = true := by simp
      constructor
      · intro e he
        rw [hps] at he
        cases hl : assocLookup (productScores l) a.productId with
        | none =>
          have hsims : chunkSimsOf l a.productId = [] := ih.2 hl
          simp only [accumulateChunk, hl, Option.getD_none] at he
          rw [assocLookup_assocSet_self] at he
          injection he with he
          rw [chunkSimsOf_append, hsims, hbt, if_pos rfl]
          subst he
          refine ⟨by simp [emptyScore], by simp [emptyScore], ?_, by simp⟩
          simp [emptyScore]
        | some e0 =>
          obtain ⟨hc, hm, hv, hne⟩ := ih.1 e0 hl
          simp only [accumulateChunk, hl, Option.getD_some] at he
          rw [assocLookup_assocSet_self] at he
          obtain ⟨emax, eavg, ech⟩ := e
          injection he with he
          injection he with h2 h3 h4
          rw [chunkSimsOf_append, hbt, if_pos rfl]
          subst h2; subst h3; subst h4
          have h1 : (e0.chunks ++
              [ChunkResult.mk a.chunkId a.chunkType a.chunkContent a.similarity
                (a.position.getD 0)]).map (·.similarity) =
              chunkSimsOf l a.productId ++ [a.similarity] := by
            simp [List.map_append, hc]
          have hlen : (e0.chunks ++
              [ChunkResult.mk a.chunkId a.chunkType a.chunkContent a.similarity
                (a.position.getD 0)]).length =
              (chunkSimsOf l a.productId ++ [a.similarity]).length := by
            rw [← h1, List.length_map]
          refine ⟨h1, ?_, ?_, by simp⟩
          · rw [List.foldl_append, ← hm]
            rfl
          · rw [h1, hlen]
      · intro hn
        rw [hps] at hn
        simp only [accumulateChunk] at hn
        rw [assocLookup_assocSet_self] at hn
        exact Option.noConfusion hn
    · have hbf : (a.productId == pid) = false := by simpa using hpa
      have hne : pid ≠ a.productId := fun h => hpa h.symm
      constructor
      · intro e he
        rw [hps] at he
        simp only [accumulateChunk] at he
        rw [assocLookup_assocSet_ne _ _ _ _ hne] at he
        rw [chunkSimsOf_append, hbf]
        simp only [Bool.false_eq_true, if_false, List.append_nil]
        exact ih.1 e he
      · intro hn
        rw [hps] at hn
        simp only [accumulateChunk] at hn
        rw [assocLookup_assocSet_ne _ _ _ _ hne] at hn
        rw [chunkSimsOf_append, hbf]
        simp only [Bool.false_eq_true, if_false, List.append_nil]
        exact ih.2 hn

/-! ## Characterization of the hybrid fusion folds -/

/-- The per-product score contributed by one retriever's result list. -/
def lookupSim (rs : List SearchResult) (pid : String) : Option ℚ :=
  (rs.find? fun r => r.productId == pid).map (·.similarity)

theorem foldl_prod_split {α β γ : Type} (g1 : α → γ → α) (g2 : β → γ → β) :
    ∀ (l : List γ) (acc : α × β),
      l.foldl (fun p r => (g1 p.1 r, g2 p.2 r)) acc =
        (l.foldl g1 acc.1, l.foldl g2 acc.2)
  | [], _ => rfl
  | r :: t, acc => by
    simp only [List.foldl_cons]
    exact foldl_prod_split g1 g2 t (g1 acc.1 r, g2 acc.2 r)

theorem lookup_foldl_set_notmem {γ β : Type} (keyOf : γ → String)
    (w : List (String × β) → γ → β) :
    ∀ (l : List γ) (acc : List (String × β)) (pid : String),
      pid ∉ l.map keyOf →
      assocLookup (l.foldl (fun s r => assocSet s (keyOf r) (w s r)) acc) pid =
        assocLookup acc pid
  | [], _, _, _ => rfl
  | r :: t, acc, pid, h => by
    simp only [List.map_cons, List.mem_cons, not_or] at h
    simp only [List.foldl_cons]
    rw [lookup_foldl_set_notmem keyOf w t _ pid (by simpa using h.2),
      assocLookup_assocSet_ne _ _ _ _ h.1]

theorem lookup_foldl_set {γ β : Type} (keyOf : γ → String) (valOf : γ → β) :
    ∀ (l : List γ) (acc : List (String × β)) (pid : String),
      (l.map keyOf).Nodup →
      assocLookup (l.foldl (fun s r => assocSet s (keyOf r) (valOf r)) acc) pid =
        match l.find? (fun r => keyOf r == pid) with
        | some r => some (valOf r)
        | none => assocLookup acc pid
  | [], _, _, _ => rfl
  | r :: t, acc, pid, hnd => by
    have hnd2 : (keyOf r :: t.map keyOf).Nodup := by simpa using hnd
    have hnd' := List.nodup_cons.mp hnd2
    simp only [List.foldl_cons, List.find?_cons]
    cases hb : (keyOf r == pid) with
    | true =>
      have hpid : keyOf r = pid := by simpa using hb
      rw [lookup_foldl_set_notmem keyOf (fun _ x => valOf x) t _ pid
        (hpid ▸ hnd'.1), hpid, assocLookup_assocSet_self]
    | false =>
      rw [lookup_foldl_set keyOf valOf t _ pid hnd'.2]
      have hne : pid ≠ keyOf r := by
        intro he
        subst he
        simp at hb
      cases t.find? (fun x => keyOf x == pid) with
      | some _ => rfl
      | none =>
        exact assocLookup_assocSet_ne _ _ _ _ hne

theorem lookup_foldl_kwScores (kwW : ℚ) :
    ∀ (l : List SearchResult) (acc : List (String × ℚ)) (pid : String),
      (l.map (·.productId)).Nodup →
      assocLookup (l.foldl (fun s r => assocSet s r.productId
          ((assocLookup s r.productId).getD 0 + r.similarity * kwW)) acc) pid =
        match l.find? (fun r => r.productId == pid) with
        | some r => some ((assocLookup acc pid).getD 0 + r.similarity * kwW)
        | none => assocLookup acc pid
  | [], _, _, _ => rfl
  | r :: t, acc, pid, hnd => by
    have hnd2 : (r.productId :: t.map (·.productId)).Nodup := by simpa using hnd
    have hnd' := List.nodup_cons.mp hnd2
    simp only [List.foldl_cons, List.find?_cons]
    cases hb : (r.productId == pid) with
    | true =>
      have hpid : r.productId = pid := by simpa using hb
      rw [lookup_foldl_set_notmem (·.productId)
        (fun s x => (assocLookup s x.productId).getD 0 + x.similarity * kwW) t _ pid
        (hpid ▸ hnd'.1), hpid, assocLookup_assocSet_self]
    | false =>
      rw [lookup_foldl_kwScores kwW t _ pid hnd'.2]
      have hne : pid ≠ r.productId := by
        intro he
        subst he
        simp at hb
      cases t.find? (fun x => x.productId == pid) with
      | some _ => simp only [assocLookup_assocSet_ne _ _ _ _ hne]
      | none => exact assocLookup_assocSet_ne _ _ _ _ hne

/-- The keyword `resultMap` step keeps a present key and fills an absent one. -/
theorem lookup_foldl_kwResultMap :
    ∀ (l : List SearchResult) (acc : List (String × SearchResult)) (pid : String),
      assocLookup (l.foldl (fun m r =>
          if (assocLookup m r.productId).isSome then m
          else assocSet m r.productId r) acc) pid =
        match assocLookup acc pid with
        | some r => some r
        | none => l.find? (fun r => r.productId == pid)
  | [], acc, pid => by
    simp only [List.foldl_nil, List.find?_nil]
    cases assocLookup acc pid <;> rfl
  | r :: t, acc, pid => by
    simp only [List.foldl_cons, List.find?_cons]
    by_cases hin : (assocLookup acc r.productId).isSome
    · rw [if_pos hin, lookup_foldl_kwResultMap t acc pid]
      cases hl : assocLookup acc pid with
      | some _ => rfl
      | none =>
        cases hb : (r.productId == pid) with
        | true =>
          have hpid : r.productId = pid := by simpa using hb
          rw [hpid, hl] at hin
          simp at hin
        | false => rfl
    · rw [if_neg hin, lookup_foldl_kwResultMap t _ pid]
      cases hb : (r.productId == pid) with
      | true =>
        have hpid : r.productId = pid := by simpa using hb
        subst hpid
        have hnone : assocLookup acc r.productId = none :=
          Option.not_isSome_iff_eq_none.mp hin
        rw [assocLookup_assocSet_self, hnone]
      | false =>
        have hne : pid ≠ r.productId := by
          intro he
          subst he
          simp at hb
        rw [assocLookup_assocSet_ne _ _ _ _ hne]

theorem find?_key_isSome_iff {γ : Type} (keyOf : γ → String) (l : List γ)
    (pid : String) :
    (l.find? fun x => keyOf x == pid).isSome ↔ pid ∈ l.map keyOf := by
  rw [List.find?_isSome]
  simp only [List.mem_map, beq_iff_eq]

theorem mem_keys_assocSet {α : Type} :
    ∀ (m : List (String × α)) (k : String) (v : α) (x : String),
      x ∈ (assocSet m k v).map (·.1) → x = k ∨ x ∈ m.map (·.1)
  | [], k, v, x, h => by
    simp only [assocSet, List.map_cons, List.map_nil, List.mem_singleton] at h
    exact Or.inl h
  | e :: rest, k, v, x, h => by
    by_cases he : e.1 = k
    · simp only [assocSet, he, beq_self_eq_true, if_true, List.map_cons] at h
      rcases List.mem_cons.mp h with h1 | h1
      · exact Or.inl h1
      · exact Or.inr (List.mem_cons.mpr (Or.inr h1))
    · have hb : (e.1 == k) = false := by simpa using he
      simp only [assocSet, hb, Bool.false_eq_true, if_false, List.map_cons] at h
      rcases List.mem_cons.mp h with h1 | h1
      · exact Or.inr (List.mem_cons.mpr (Or.inl h1))
      · rcases mem_keys_assocSet rest k v x h1 with h2 | h2
        · exact Or.inl h2
        · exact Or.inr (List.mem_cons.mpr (Or.inr h2))

theorem keys_nodup_assocSet {α : Type} :
    ∀ (m : List (String × α)) (k : String) (v : α),
      (m.map (·.1)).Nodup → ((assocSet m k v).map (·.1)).Nodup
  | [], k, v, _ => by simp [assocSet]
  | e :: rest, k, v, h => by
    have h2 : (e.1 :: rest.map (·.1)).Nodup := by simpa only [List.map_cons] using h
    have h' := List.nodup_cons.mp h2
    by_cases he : e.1 = k
    · simp only [assocSet, he, beq_self_eq_true, if_true, List.map_cons]
      exact List.nodup_cons.mpr ⟨he ▸ h'.1, h'.2⟩
    · have hb : (e.1 == k) = false := by simpa using he
      simp only [assocSet, hb, Bool.false_eq_true, if_false, List.map_cons]
      refine List.nodup_cons.mpr ⟨?_, keys_nodup_assocSet rest k v h'.2⟩
      intro hmem
      rcases mem_keys_assocSet rest k v e.1 hmem with h1 | h1
      · exact he h1
      · exact h'.1 h1

theorem keys_nodup_foldl_set {γ β : Type} (keyOf : γ → String)
    (w : List (String × β) → γ → β) :
    ∀ (l : List γ) (acc : List (String × β)),
      (acc.map (·.1)).Nodup →
      ((l.foldl (fun s r => assocSet s (keyOf r) (w s r)) acc).map (·.1)).Nodup
  | [], _, h => h
  | r :: t, acc, h => by
    simp only [List.foldl_cons]
    exact keys_nodup_foldl_set keyOf w t _ (keys_nodup_assocSet _ _ _ h)

theorem assocLookup_of_mem_nodupKeys {α : Type} :
    ∀ (m : List (String × α)) (k : String) (v : α),
      (m.map (·.1)).Nodup → (k, v) ∈ m → assocLookup m k = some v
  | [], _, _, _, hm => by cases hm
  | e :: rest, k, v, hnd, hm => by
    have h2 : (e.1 :: rest.map (·.1)).Nodup := by simpa only [List.map_cons] using hnd
    have h' := List.nodup_cons.mp h2
    rw [assocLookup_cons]
    rcases List.mem_cons.mp hm with h1 | h1
    · rw [← h1]
      simp
    · have hk : k ∈ rest.map (·.1) := List.mem_map_of_mem (·.1) h1
      have hne : e.1 ≠ k := fun he => h'.1 (he ▸ hk)
      rw [if_neg (by simpa using hne)]
      exact assocLookup_of_mem_nodupKeys rest k v h'.2 h1

theorem fusedInner_split (vw : ℚ) :
    ∀ (vec : List SearchResult)
      (acc : List (String × ℚ) × List (String × SearchResult)),
      vec.foldl (fun acc r =>
        (assocSet acc.1 r.productId (r.similarity * vw),
         assocSet acc.2 r.productId r)) acc =
      (vec.foldl (fun s r => assocSet s r.productId (r.similarity * vw)) acc.1,
       vec.foldl (fun m r => assocSet m r.productId r) acc.2)
  | [], _ => rfl
  | r :: t, acc => by
    simp only [List.foldl_cons]
    exact fusedInner_split vw t _

theorem fusedOuter_split (kwW : ℚ) :
    ∀ (kw : List SearchResult)
      (acc : List (String × ℚ) × List (String × SearchResult)),
      kw.foldl (fun acc r =>
        (assocSet acc.1 r.productId
          ((assocLookup acc.1 r.productId).getD 0 + r.similarity * kwW),
         if (assocLookup acc.2 r.productId).isSome then acc.2
         else assocSet acc.2 r.productId r)) acc =
      (kw.foldl (fun s r => assocSet s r.productId
          ((assocLookup s r.productId).getD 0 + r.similarity * kwW)) acc.1,
       kw.foldl (fun m r =>
          if (assocLookup m r.productId).isSome then m
          else assocSet m r.productId r) acc.2)
  | [], _ => rfl
  | r :: t, acc => by
    simp only [List.foldl_cons]
    exact fusedOuter_split kwW t _

/-- The `combinedScores` component of the fusion state. -/
theorem fusedState_fst (vec kw : List SearchResult) (vw kwW : ℚ) :
    (fusedState vec kw vw kwW).1 =
      kw.foldl (fun s r => assocSet s r.productId
          ((assocLookup s r.productId).getD 0 + r.similarity * kwW))
        (vec.foldl (fun s r => assocSet s r.productId (r.similarity * vw)) []) := by
  unfold fusedState
  rw [fusedInner_split, fusedOuter_split]

/-- The `resultMap` component of the fusion state. -/
theorem fusedState_snd (vec kw : List SearchResult) (vw kwW : ℚ) :
    (fusedState vec kw vw kwW).2 =
      kw.foldl (fun m r =>
          if (assocLookup m r.productId).isSome then m
          else assocSet m r.productId r)
        (vec.foldl (fun m r => assocSet m r.productId r) []) := by
  unfold fusedState
  rw [fusedInner_split, fusedOuter_split]

/-- The fused `combinedScores` map realizes
`finalScore = vectorComponent * vectorWeight + lexicalComponent * keywordWeight`
over the union of the two product sets, a missing side contributing 0. -/
theorem fusedScores_lookup (vec kw : List SearchResult) (vw kwW : ℚ) (pid : String)
    (hv : (vec.map (·.productId)).Nodup) (hk : (kw.map (·.productId)).Nodup) :
    assocLookup (fusedState vec kw vw kwW).1 pid =
      if pid ∈ vec.map (·.productId) ∨ pid ∈ kw.map (·.productId)
      then some ((lookupSim vec pid).getD 0 * vw + (lookupSim kw pid).getD 0 * kwW)
      else none := by
  rw [fusedState_fst, lookup_foldl_kwScores kwW kw _ pid hk]
  have hvec := lookup_foldl_set (·.productId) (fun r => r.similarity * vw) vec [] pid hv
  cases hfk : kw.find? (fun r => r.productId == pid) with
  | some rk =>
    have hmemk : pid ∈ kw.map (·.productId) := by
      rw [← find?_key_isSome_iff (·.productId) kw pid, hfk]
      rfl
    rw [hvec]
    cases hfv : vec.find? (fun r => r.productId == pid) with
    | some rv =>
      rw [if_pos (Or.inr hmemk)]
      simp [lookupSim, hfv, hfk]
    | none =>
      rw [if_pos (Or.inr hmemk)]
      simp only [lookupSim, hfv, hfk, Option.map_none', Option.map_some',
        Option.getD_none, Option.getD_some, assocLookup_nil]
      rw [zero_mul, zero_add]
  | none =>
    rw [hvec]
    cases hfv : vec.find? (fun r => r.productId == pid) with
    | some rv =>
      have hmemv : pid ∈ vec.map (·.productId) := by
        rw [← find?_key_isSome_iff (·.productId) vec pid, hfv]
        rfl
      rw [if_pos (Or.inl hmemv)]
      simp only [lookupSim, hfv, hfk, Option.map_none', Option.map_some',
        Option.getD_none, Option.getD_some]
      rw [zero_mul, add_zero]
    | none =>
      have hmv : pid ∉ vec.map (·.productId) := by
        rw [← find?_key_isSome_iff (·.productId) vec pid, hfv]
        simp
      have hmk : pid ∉ kw.map (·.productId) := by
        rw [← find?_key_isSome_iff (·.productId) kw pid, hfk]
        simp
      rw [if_neg (by simp [hmv, hmk]), assocLookup_nil]

/-- The fused `resultMap` resolves a product from the vector side first,
else from the keyword side. -/
theorem fusedResultMap_lookup (vec kw : List SearchResult) (vw kwW : ℚ)
    (pid : String) (hv : (vec.map (·.productId)).Nodup) :
    assocLookup (fusedState vec kw vw kwW).2 pid =
      match vec.find? (fun r => r.productId == pid) with
      | some r => some r
      | none => kw.find? (fun r => r.productId == pid) := by
  rw [fusedState_snd]
  rw [lookup_foldl_kwResultMap kw _ pid,
    lookup_foldl_set (·.productId) (fun r => r) vec [] pid hv]
  cases vec.find? (fun r => r.productId == pid) with
  | some _ => rfl
  | none => rw [assocLookup_nil]

theorem filterMap_eq_map_of_all {α β : Type} (f : α → Option β) (g : α → β) :
    ∀ l : List α, (∀ a ∈ l, f a = some (g a)) → l.filterMap f = l.map g
  | [], _ => rfl
  | a :: t, h => by
    rw [List.filterMap_cons, h a (List.mem_cons_self a t), List.map_cons,
      filterMap_eq_map_of_all f g t fun x hx => h x (List.mem_cons_of_mem a hx)]

/-! ## Concrete instances used by counterexamples and witnesses -/

/-- A product whose category violates the `categories` filter below. -/
def productC1 : Product := { id := "p1", name := "Blue Shoe", category := some "Shoes" }

def chunkC1 : ProductChunkRow := { id := "k1", productId := "p1", chunkContent := "blue shoe" }

def storeC1 : Store := { products := [productC1], chunks := [chunkC1] }

def filtersC1 : SearchFilters := { categories := some ["Hats"] }

def optsC1 : SearchOptions := { query := "shoe", filters := filtersC1 }

def txtSimC1 : String → String → ℚ := fun _ _ => 1 / 2

def chunkSimC1 : ProductChunkRow → ℚ := fun _ => 9 / 10

/-- Three products for the hybrid/MMR scenario: two near-duplicates and one
dissimilar product. -/
def productsC2 : List Product :=
  [{ id := "p1", name := "alpha", category := some "a", brand := some "x",
     priceNumeric := some 10 },
   { id := "p2", name := "beta", category := some "a", brand := some "x",
     priceNumeric := some 10 },
   { id := "p3", name := "gamma", category := some "b", brand := some "y",
     priceNumeric := some 50 }]

def chunksC2 : List ProductChunkRow :=
  [{ id := "c1", productId := "p1" }, { id := "c2", productId := "p2" },
   { id := "c3", productId := "p3" }]

def storeC2 : Store := { products := productsC2, chunks := chunksC2 }

def simC2 : ProductChunkRow → ℚ := fun c =>
  if c.id = "c1" then 9 / 10 else if c.id = "c2" then 17 / 20 else 4 / 5

def txtSimC2 : String → String → ℚ := fun _ _ => 0

def optsC2 : SearchOptions := { query := "q", rerank := some true }

/-- A single negative-similarity chunk hit (possible whenever the caller
passes a negative `threshold`; cosine similarity ranges over `[-1, 1]`). -/
def hitsC4neg : List ChunkHit :=
  [{ productId := "p", chunkId := "c1", chunkType := some "main",
     chunkContent := "x", position := some 0, similarity := -(1 / 2) }]

/-- The aggregation-correctness example: chunk similarities 0.9, 0.5, 0.7. -/
def hitsC4 : List ChunkHit :=
  [{ productId := "p", chunkId := "c1", chunkType := some "main",
     chunkContent := "a", position := some 0, similarity := 9 / 10 },
   { productId := "p", chunkId := "c2", chunkType := some "specs",
     chunkContent := "b", position := some 1, similarity := 1 / 2 },
   { productId := "p", chunkId := "c3", chunkType := some "details",
     chunkContent := "c", position := some 2, similarity := 7 / 10 }]

/-- The aggregation state the loop produces for `hitsC4`. -/
def scoreC4 : ProductScore :=
  { maxSimilarity := 9 / 10, avgSimilarity := 7 / 10,
    chunks :=
      [{ chunkId := "c1", chunkType := some "main", content := "a",
         similarity := 9 / 10, position := 0 },
       { chunkId := "c2", chunkType := some "specs", content := "b",
         similarity := 1 / 2, position := 1 },
       { chunkId := "c3", chunkType := some "details", content := "c",
         similarity := 7 / 10, position := 2 }] }

/-- An already-selected result with a positive price. -/
def selC6 : SearchResult :=
  { productId := "s", name := "s", category := some "a", brand := some "x",
    price := some 1, similarity := 1 }

/-- A candidate with a negative price: its pairwise similarity to `selC6`
is negative, so the `Math.max`-from-0 fold hides it. -/
def candC6 : SearchResult :=
  { productId := "c", name := "c", category := some "b", brand := some "y",
    price := some (-1), similarity := 1 }

def r1C6 : SearchResult :=
  { productId := "r1", name := "r1", category := some "a", brand := some "x",
    price := some 1, similarity := 1 / 2 }

def r2C6 : SearchResult :=
  { productId := "r2", name := "r2", category := some "b", brand := some "z",
    price := some 2, similarity := 9 / 10 }

/-- The lexical counterexample: trigram-similar but not a substring match. -/
def productC8 : Product := { id := "p8", name := "Choclate Bar" }

def storeC8 : Store := { products := [productC8], chunks := [] }

def txtSimC8 : String → String → ℚ := fun a _ => if a = "Choclate Bar" then 1 / 2 else 0

def optsC8 : SearchOptions := { query := "chocolate" }

/-- Offset scenario: product `a` has one strong chunk, product `b` two. -/
def storeC10 : Store :=
  { products := [{ id := "a", name := "A" }, { id := "b", name := "B" }],
    chunks := [{ id := "a1", productId := "a" }, { id := "b1", productId := "b" },
               { id := "b2", productId := "b" }] }

def simC10 : ProductChunkRow → ℚ := fun c =>
  if c.id = "a1" then 9 / 10 else if c.id = "b1" then 4 / 5 else 7 / 10

def opts0C10 : SearchOptions := { query := "q", limit := some 2 }

def opts2C10 : SearchOptions := { query := "q", limit := some 2, offset := some 2 }

/-- Fusion example: vector score 0.8, lexical score 0.4. -/
def vecResC5 : List SearchResult :=
  [{ productId := "p", name := "P", similarity := 4 / 5 }]

def kwResC5 : List SearchResult :=
  [{ productId := "p", name := "P", similarity := 2 / 5 }]

/-! ## Claim theorems -/

/-- C1: the claim states that both retrievers enforce every present filter
field.  The code does not: `keywordSearch` builds only the `shopId` and
`priceRange` conditions (the rest sit behind a `// ... other filters`
comment), so with `filters.categories = ["Hats"]` the keyword retriever
returns a product of category `"Shoes"`, while the vector retriever —
which does build the `categories` condition — returns nothing on the very
same options.  `keywordFilterConditions filtersC1 = []` records that the
keyword side compiled the categories filter to no condition at all. -/
theorem C1_keyword_ignores_filters :
    (keywordSearchRun storeC1 txtSimC1 optsC1).map (fun r => (r.productId, r.category)) =
      [("p1", some "Shoes")] ∧
    sqlIn productC1.category ["Hats"] = false ∧
    vectorSearchRun storeC1 chunkSimC1 optsC1 = [] ∧
    keywordFilterConditions filtersC1 = [] :=
  ⟨by decide, by decide, by decide, rfl⟩

/-- C2 counterexample: with `rerank = true`, `hybridSearch` returns the
fused list `[p1, p2, p3]` as-is; the MMR reranker applied to that very
list would return `[p1, p3, p2]`, so the returned list is *not* the
MMR-reordered fused list.  (`hybridSearch` never calls `rerankResults`; it
even forces `rerank: false` on the inner vector search.) -/
theorem C2_counterexample :
    (hybridSearchRun storeC2 simC2 txtSimC2 optsC2 none none).map (·.productId) =
      ["p1", "p2", "p3"] ∧
    (rerankResults optsC2.query
        (hybridSearchRun storeC2 simC2 txtSimC2 optsC2 none none) (7 / 10)).map (·.productId) =
      ["p1", "p3", "p2"] ∧
    optsC2.rerank = some true :=
  ⟨by decide, by decide, rfl⟩

/-- C2 amended: `hybridSearch` ignores the `rerank` flag entirely — its
output is the fused, score-sorted, `limit`-truncated list, identical for
`rerank = true` and `rerank = false`, and equal to the fusion of the
(rerank-disabled) vector results with the keyword results; the MMR
reranker is never invoked on the fused list. -/
theorem C2_amended_rerank_ignored (store : Store) (chunkSim : ProductChunkRow → ℚ)
    (txtSim : String → String → ℚ) (opts : SearchOptions)
    (vw kwW : Option ℚ) :
    hybridSearchRun store chunkSim txtSim { opts with rerank := some true } vw kwW =
      hybridSearchRun store chunkSim txtSim { opts with rerank := some false } vw kwW ∧
    hybridSearchRun store chunkSim txtSim opts vw kwW =
      fuseResults (vectorSearchRun store chunkSim { opts with rerank := some false })
        (keywordSearchRun store txtSim opts)
        (vw.getD (7 / 10)) (kwW.getD (3 / 10)) (jsOrNat opts.limit 10) :=
  ⟨rfl, rfl⟩

/-- C4 counterexample: a single retrieved chunk with (negative) similarity
−1/2 yields `maxSimilarity = 0`, not the chunk-maximum −1/2: the running
maximum starts at 0, so the claimed "maxSimilarity equals the maximum
similarity over that product's retrieved chunks" fails. -/
theorem C4_counterexample :
    (assocLookup (productScores hitsC4neg) "p").map (·.maxSimilarity) = some 0 ∧
    chunkSimsOf hitsC4neg "p" = [-(1 / 2)] := by
  constructor
  · decide
  · decide

/-- C6 counterexample: with one selected result and a candidate whose
pairwise similarity is the ordinary number −2/5 (different category and
brand, prices 1 and −1), the computed diversity penalty is 0, not the
claimed maximum (−2/5) of the pairwise similarities over the selected
results — the running `Math.max` starts at 0. -/
theorem C6_counterexample :
    maxSimilarityToSelected [selC6] candC6 = some 0 ∧
    mmrPairSimilarity selC6 candC6 = JsNum.num (-(2 / 5)) := by
  constructor
  · decide
  · decide

/-- C8 counterexample: the product `"Choclate Bar"` passes every filter
condition `keywordSearch` builds and has best-field similarity 1/2 > 0 for
the query `"chocolate"`, yet the retriever returns the empty list, because
the WHERE clause additionally requires the query to occur as a
case-insensitive substring (`ILIKE '%chocolate%'`) of one of the four
fields — so "score each predicate-matching product … return the top limit"
is not what the code does. -/
theorem C8_counterexample :
    keywordSearchRun storeC8 txtSimC8 optsC8 = [] ∧
    keywordScore txtSimC8 "chocolate" productC8 = 1 / 2 ∧
    (keywordFilterConditions optsC8.filters).all (fun cond => cond productC8) = true ∧
    ilikeAnyField productC8 "chocolate" = false := by
  refine ⟨by decide, by decide, rfl, by decide⟩

/-- C10: the `OFFSET` is applied to the chunk-level similarity ranking
before per-product aggregation.  Concretely (limit 2): with offset 0 the
result is `[a (0.9), b (0.785)]`; with offset 2 the two most similar
chunks (`a1`, `b1`) are skipped corpus-wide, product `a` disappears
entirely and product `b`'s score drops to 0.7 — membership and scores both
change, which skipping two *products* could not produce (it would leave
the empty list).  The last conjunct exhibits the skipped chunk ranking. -/
theorem C10_offset_chunk_level :
    (vectorSearchRun storeC10 simC10 opts0C10).map (fun r => (r.productId, r.similarity)) =
      [("a", 9 / 10), ("b", 157 / 200)] ∧
    (vectorSearchRun storeC10 simC10 opts2C10).map (fun r => (r.productId, r.similarity)) =
      [("b", 7 / 10)] ∧
    ((vectorSearchRun storeC10 simC10 opts0C10).map (·.productId)).drop 2 = [] ∧
    chunkHits storeC10 simC10 {} (1 / 2) 2 2 =
      [toChunkHit simC10 { id := "b2", productId := "b" }] ∧
    (∀ (store : Store) (sim : ProductChunkRow → ℚ) (f : SearchFilters) (t : ℚ)
        (l o : Nat),
      chunkHits store sim f t l o =
        ((sortByDesc (·.similarity)
          ((matchedChunks store sim f t).map (toChunkHit sim))).drop o).take (l * 3)) :=
  ⟨by decide, by decide, by decide, by decide, fun _ _ _ _ _ _ => rfl⟩

/-- Two zero-priced results (`price` `"0.00"` is a truthy string, so the
price branch runs and divides `0/0`). -/
def z1C3 : SearchResult :=
  { productId := "z1", name := "z1", price := some 0, similarity := 1 }

def z2C3 : SearchResult :=
  { productId := "z2", name := "z2", price := some 0, similarity := 9 / 10 }

/-- C3 counterexample: on the two-element input `[z1C3, z2C3]`, both
priced 0, the pairwise price division is `0/0 = NaN`; after `z1` is
seeded, `z2`'s `mmrScore` is `NaN`, the `mmrScore > bestScore` comparison
fails, `bestIndex` stays −1, the loop breaks, and `z2` is dropped: the
output `[z1]` has length 1, not 2 — not a permutation of the input. -/
theorem C3_counterexample :
    (rerankResults "q" [z1C3, z2C3] (7 / 10)).map (·.productId) = ["z1"] ∧
    (rerankResults "q" [z1C3, z2C3] (7 / 10)).length = 1 ∧
    [z1C3, z2C3].length = 2 ∧
    mmrPairSimilarity z1C3 z2C3 = JsNum.nan := by
  refine ⟨by decide, by decide, by decide, by decide⟩

/-- C3 amended: the MMR reranker's output is a permutation of the input —
same multiset of results, of productIds, and same length — for every
input list in which at most one result is priced exactly 0 (so that no
selected–candidate pair triggers the `0/0 = NaN` price division); with two
zero-priced results a `NaN` `mmrScore` can end a round with
`bestIndex = -1`, breaking the loop and dropping the remaining items. -/
theorem C3_mmr_is_permutation (q : String) (results : List SearchResult) (lam : ℚ)
    (h : results.countP isZeroPriced ≤ 1) :
    (rerankResults q results lam).Perm results ∧
    ((rerankResults q results lam).map (·.productId)).Perm
      (results.map (·.productId)) ∧
    (rerankResults q results lam).length = results.length := by
  have hp : (rerankResults q results lam).Perm results := by
    cases results with
    | nil => simp [rerankResults]
    | cons first rest =>
      have hcnt : ([first] ++ rest).countP isZeroPriced ≤ 1 := h
      have h2 := mmrLoop_perm lam (rest.length + 1) rest.length [first] rest
        (le_refl _) (by simp [Nat.add_comm]) hcnt
      simpa [rerankResults] using h2
  exact ⟨hp, hp.map _, hp.length_eq⟩

/-- Distinctly-priced results for the C3 witness. -/
def w1C3 : SearchResult :=
  { productId := "w1", name := "w1", price := some 1, similarity := 1 }

def w2C3 : SearchResult :=
  { productId := "w2", name := "w2", price := some 2, similarity := 1 / 2 }

/-- C3 witness: on a concrete two-element input with no zero price the
reranker returns a permutation of the input, of full length. -/
theorem C3_witness :
    (rerankResults "q" [w1C3, w2C3] (7 / 10)).Perm [w1C3, w2C3] ∧
    (rerankResults "q" [w1C3, w2C3] (7 / 10)).length = 2 :=
  ⟨(C3_mmr_is_permutation "q" [w1C3, w2C3] (7 / 10) (by decide)).1,
   (C3_mmr_is_permutation "q" [w1C3, w2C3] (7 / 10) (by decide)).2.2⟩

/-- C7: the vector retriever keeps exactly the predicate-matching chunks
with cosine similarity strictly greater than `threshold`, and raising the
threshold never increases the number of matched chunks. -/
theorem C7_threshold_monotone (store : Store) (chunkSim : ProductChunkRow → ℚ)
    (f : SearchFilters) (t1 t2 : ℚ) (h : t1 ≤ t2) :
    (∀ c, c ∈ matchedChunks store chunkSim f t1 ↔
      (c ∈ store.chunks ∧ t1 < chunkSim c ∧
        chunkPassesFilters store.products (vectorFilterConditions f) c = true)) ∧
    (matchedChunks store chunkSim f t2).length ≤
      (matchedChunks store chunkSim f t1).length := by
  constructor
  · intro c
    simp [matchedChunks, List.mem_filter, and_assoc]
  · refine List.Sublist.length_le (List.monotone_filter_right _ ?_)
    intro c hc
    simp only [Bool.and_eq_true, decide_eq_true_eq] at hc ⊢
    exact ⟨lt_of_le_of_lt h hc.1, hc.2⟩

theorem findProduct_some_id (prods : List Product) (pid : String) (p : Product)
    (h : findProduct prods pid = some p) : p.id = pid := by
  simpa using List.find?_some h

/-- C9: a ranked productId whose metadata lookup resolves to no product is
silently omitted from the assembled result list — the output ids are
exactly the resolvable ids, in rank order — and the remaining results are
still returned; `buildResults` is total, so no error is raised. -/
theorem C9_orphaned_ids_dropped (includeChunks : Bool) (prods : List Product)
    (tops : List ScoredProduct) :
    (buildResults includeChunks prods tops).map (·.productId) =
      (tops.map (·.productId)).filter (fun pid => (findProduct prods pid).isSome) ∧
    (buildResults includeChunks prods tops).length =
      (tops.filter (fun t => (findProduct prods t.productId).isSome)).length ∧
    (∀ t ∈ tops, findProduct prods t.productId = none →
      ∀ r ∈ buildResults includeChunks prods tops, r.productId ≠ t.productId) := by
  have hmap : (buildResults includeChunks prods tops).map (·.productId) =
      (tops.map (·.productId)).filter (fun pid => (findProduct prods pid).isSome) := by
    induction tops with
    | nil => rfl
    | cons t ts ih =>
      simp only [buildResults, List.filterMap_cons, List.map_cons, List.filter_cons]
      cases hf : findProduct prods t.productId with
      | none =>
        simp only [Option.map_none', hf, Option.isSome_none, Bool.false_eq_true,
          if_false]
        exact ih
      | some p =>
        simp only [Option.map_some', hf, Option.isSome_some, if_true, List.map_cons]
        rw [show (toSearchResult includeChunks t p).productId = t.productId from
          findProduct_some_id prods t.productId p hf]
        exact congrArg _ ih
  refine ⟨hmap, ?_, ?_⟩
  · have h1 : (buildResults includeChunks prods tops).length =
        ((buildResults includeChunks prods tops).map (·.productId)).length := by
      rw [List.length_map]
    rw [h1, hmap, List.filter_map, List.length_map]
    congr 1
  · intro t _ hnone r hr hid
    have : r.productId ∈ (tops.map (·.productId)).filter
        (fun pid => (findProduct prods pid).isSome) := by
      rw [← hmap]
      exact List.mem_map_of_mem (·.productId) hr
    rw [List.mem_filter, hid, hnone] at this
    simp at this

def storeC7 : Store :=
  { products := [{ id := "p7", name := "P7" }],
    chunks := [{ id := "k7", productId := "p7" }] }

/-- C7 witness: at a concrete store, raising the threshold from 1/2 to
7/10 does not increase the matched-chunk count. -/
theorem C7_witness :
    (matchedChunks storeC7 (fun _ => 9 / 10) {} (7 / 10)).length ≤
      (matchedChunks storeC7 (fun _ => 9 / 10) {} (1 / 2)).length :=
  (C7_threshold_monotone storeC7 (fun _ => 9 / 10) {} (1 / 2) (7 / 10)
    (by decide)).2

/-- C4 amended: for every product in the aggregation map, `avgSimilarity`
is the arithmetic mean of the product's retrieved chunk similarities and
the product's score is `combinedScore = 0.7 × maxSimilarity +
0.3 × avgSimilarity`, but `maxSimilarity` is the running maximum **started
at 0** — `foldl max 0` — which coincides with the true chunk maximum
exactly when some chunk similarity is nonnegative (in particular whenever
`threshold ≥ 0`, e.g. the default 0.5); the claim's example
`[0.9, 0.5, 0.7] ↦ 0.84` is correct (see the witness). -/
theorem C4_aggregation (hits : List ChunkHit) (pid : String) (e : ProductScore)
    (h : assocLookup (productScores hits) pid = some e) :
    e.chunks.map (·.similarity) = chunkSimsOf hits pid ∧
    e.maxSimilarity = (chunkSimsOf hits pid).foldl max 0 ∧
    e.avgSimilarity =
      (chunkSimsOf hits pid).sum / ((chunkSimsOf hits pid).length : ℚ) ∧
    chunkSimsOf hits pid ≠ [] ∧
    combinedScoreOf e = e.maxSimilarity * (7 / 10) + e.avgSimilarity * (3 / 10) ∧
    ((∀ s ∈ chunkSimsOf hits pid, 0 ≤ s) →
      e.maxSimilarity ∈ chunkSimsOf hits pid ∧
      ∀ s ∈ chunkSimsOf hits pid, s ≤ e.maxSimilarity) := by
  obtain ⟨hc, hm, hv, hne⟩ := (productScores_lookup hits pid).1 e h
  refine ⟨hc, hm, hv, hne, rfl, ?_⟩
  intro hnn
  constructor
  · rcases @foldl_max_choice (chunkSimsOf hits pid) 0 with h0 | hmem
    · rw [hm, h0]
      cases hsims : chunkSimsOf hits pid with
      | nil => exact absurd hsims hne
      | cons s ss =>
        have hsmem : s ∈ chunkSimsOf hits pid := by
          rw [hsims]
          exact List.mem_cons_self s ss
        have hs0 : 0 ≤ s := hnn s hsmem
        have hsle : s ≤ (chunkSimsOf hits pid).foldl max 0 :=
          foldl_max_of_mem hsmem 0
        rw [h0] at hsle
        have hs : s = 0 := le_antisymm hsle hs0
        rw [← hs]
        exact List.mem_cons_self s ss
    · exact hm ▸ hmem
  · intro s hs
    exact hm ▸ foldl_max_of_mem hs 0

/-- C4 witness: chunk similarities `[0.9, 0.5, 0.7]` of one product give
`maxSimilarity = 0.9`, `avgSimilarity = 0.7` and
`combinedScore = 0.84`, matching the claim's concrete example. -/
theorem C4_witness :
    assocLookup (productScores hitsC4) "p" = some scoreC4 ∧
    scoreC4.maxSimilarity = (chunkSimsOf hitsC4 "p").foldl max 0 ∧
    scoreC4.maxSimilarity = 9 / 10 ∧ scoreC4.avgSimilarity = 7 / 10 ∧
    combinedScoreOf scoreC4 = 84 / 100 :=
  ⟨by decide, (C4_aggregation hitsC4 "p" scoreC4 (by decide)).2.1,
   by decide, by decide, by decide⟩

/-- C6 amended: at every MMR selection step the pairwise similarity is
`0.3·[same category] + 0.3·[same brand] + 0.4 × (1 − |pa−pb| / max pa pb)`
when both prices are present and `max pa pb ≠ 0` (no price term if either
price is absent), while two zero prices make it `NaN` (`0/0`); the
diversity penalty is the `Math.max` of **0** and the pairwise
similarities — `NaN` exactly when some pairwise similarity is `NaN`, and
otherwise at least 0, an upper bound of every finite pairwise similarity,
and attained by one of them or by the floor 0 (so it equals the claimed
maximum only when some pairwise similarity is nonnegative); the first
candidate attaining the maximal non-`NaN`
`mmrScore = λ × relevance − (1−λ) × diversityPenalty` is appended next,
`NaN`-scored candidates are never selected. -/
theorem C6_mmr_step (lam : ℚ) (sel rem : List SearchResult) (c : SearchResult)
    (sc : ℚ) (rest : List SearchResult)
    (hpick : pickBest lam sel rem = some (c, sc, rest)) :
    (∀ x p, maxSimilarityToSelected sel x = some p →
      0 ≤ p ∧
      (∀ s ∈ sel, ∀ v, mmrPairSimilarity s x = JsNum.num v → v ≤ p) ∧
      (p = 0 ∨ ∃ s ∈ sel, mmrPairSimilarity s x = JsNum.num p)) ∧
    (∀ x, maxSimilarityToSelected sel x = none ↔
      ∃ s ∈ sel, mmrPairSimilarity s x = JsNum.nan) ∧
    (∀ s x pa pb, s.price = some pa → x.price = some pb → max pa pb ≠ 0 →
      mmrPairSimilarity s x = JsNum.num
        ((if s.category == x.category then (3 : ℚ) / 10 else 0) +
         (if s.brand == x.brand then (3 : ℚ) / 10 else 0) +
         4 / 10 * (1 - |pa - pb| / max pa pb))) ∧
    (∀ s x, s.price = some 0 → x.price = some 0 →
      mmrPairSimilarity s x = JsNum.nan) ∧
    (∀ s x, s.price = none ∨ x.price = none →
      mmrPairSimilarity s x = JsNum.num
        ((if s.category == x.category then (3 : ℚ) / 10 else 0) +
         (if s.brand == x.brand then (3 : ℚ) / 10 else 0))) ∧
    (∀ x p, maxSimilarityToSelected sel x = some p →
      mmrScore lam sel x = some (lam * x.similarity - (1 - lam) * p)) ∧
    c ∈ rem ∧
    mmrScore lam sel c = some sc ∧
    (∀ x ∈ rem, ∀ sx, mmrScore lam sel x = some sx → sx ≤ sc) ∧
    (∀ total fuel, 0 < rem.length → sel.length < total →
      mmrLoop lam total (fuel + 1) sel rem =
        mmrLoop lam total fuel (sel ++ [c]) rest) := by
  obtain ⟨hmem, hscore, hbound⟩ := pickBest_maximal lam sel rem c sc rest hpick
  refine ⟨?_, fun x => maxSimilarityToSelected_none_iff sel x, ?_, ?_, ?_, ?_,
    hmem, hscore, hbound, ?_⟩
  · intro x p hp
    exact foldl_jsMaxAcc_some x sel 0 p hp
  · intro s x pa pb hsp hxp hm
    simp only [mmrPairSimilarity, hsp, hxp]
    rw [if_neg hm]
    congr 1
    by_cases h1 : s.category == x.category <;> by_cases h2 : s.brand == x.brand <;>
      simp [h1, h2]
  · intro s x hs0 hx0
    simp [mmrPairSimilarity, hs0, hx0]
  · intro s x hn
    cases hps : s.price with
    | none =>
      cases hpx : x.price with
      | none =>
        simp only [mmrPairSimilarity, hps, hpx]
        congr 1
        by_cases h1 : s.category == x.category <;>
          by_cases h2 : s.brand == x.brand <;> simp [h1, h2]
      | some pb =>
        simp only [mmrPairSimilarity, hps, hpx]
        congr 1
        by_cases h1 : s.category == x.category <;>
          by_cases h2 : s.brand == x.brand <;> simp [h1, h2]
    | some pa =>
      cases hpx : x.price with
      | none =>
        simp only [mmrPairSimilarity, hps, hpx]
        congr 1
        by_cases h1 : s.category == x.category <;>
          by_cases h2 : s.brand == x.brand <;> simp [h1, h2]
      | some pb =>
        exfalso
        rcases hn with hn | hn
        · rw [hn] at hps
          exact Option.noConfusion hps
        · rw [hn] at hpx
          exact Option.noConfusion hpx
  · intro x p hp
    simp [mmrScore, hp]
  · intro total fuel h1 h2
    simp only [mmrLoop]
    rw [if_pos (And.intro h1 h2), hpick]

/-- C6 witness: with one selected result and two finitely-scored
candidates, the step picks the candidate of maximal `mmrScore` (here
`r2C6`, whose score 0.57 beats `r1C6`'s 0.05). -/
theorem C6_witness :
    r2C6 ∈ [r1C6, r2C6] ∧
    mmrScore (7 / 10) [selC6] r2C6 = some (57 / 100) ∧
    (1 / 20 : ℚ) ≤ 57 / 100 :=
  ⟨(C6_mmr_step (7 / 10) [selC6] [r1C6, r2C6] r2C6 (57 / 100) [r1C6]
      (by decide)).2.2.2.2.2.2.1,
   (C6_mmr_step (7 / 10) [selC6] [r1C6, r2C6] r2C6 (57 / 100) [r1C6]
      (by decide)).2.2.2.2.2.2.2.1,
   (C6_mmr_step (7 / 10) [selC6] [r1C6, r2C6] r2C6 (57 / 100) [r1C6]
      (by decide)).2.2.2.2.2.2.2.2.1 r1C6 (by decide) (1 / 20) (by decide)⟩

/-- C8 amended: the lexical retriever's candidate set is **exactly** the
products that (i) pass the filter conditions `keywordSearch` actually
builds (`shopId` and `priceRange`) **and** (ii) contain the raw query as a
case-insensitive substring of name, description, category or brand (the
`ILIKE` gate); each candidate is scored by the best of the four field
similarities (`GREATEST`); and the output is exactly the materialization
of the window `[offset, offset + limit)` of the candidates sorted by score
descending — a permutation-and-sortedness characterization plus the
window equation, so the top-`limit`-scoring candidates after `offset` are
the ones returned (they dominate every candidate past the window), in
descending score order, with exact length
`min limit (candidates − offset)`. -/
theorem C8_keyword_search (store : Store) (txtSim : String → String → ℚ)
    (opts : SearchOptions) :
    (∀ p : Product, p ∈ keywordCandidates store opts.filters opts.query ↔
      (p ∈ store.products ∧ ilikeAnyField p opts.query = true ∧
        (keywordFilterConditions opts.filters).all (fun cond => cond p) = true)) ∧
    (keywordRanked store txtSim opts).Perm
      ((keywordCandidates store opts.filters opts.query).map
        fun p => (p, keywordScore txtSim opts.query p)) ∧
    ((keywordRanked store txtSim opts).Pairwise fun a b => b.2 ≤ a.2) ∧
    keywordSearchRun store txtSim opts =
      (((keywordRanked store txtSim opts).drop (opts.offset.getD 0)).take
        (opts.limit.getD 10)).map (fun e => keywordToResult e.1 e.2) ∧
    (∀ e1 ∈ ((keywordRanked store txtSim opts).drop (opts.offset.getD 0)).take
        (opts.limit.getD 10),
      ∀ e2 ∈ (keywordRanked store txtSim opts).drop
        (opts.offset.getD 0 + opts.limit.getD 10), e2.2 ≤ e1.2) ∧
    (keywordSearchRun store txtSim opts).length =
      min (opts.limit.getD 10)
        ((keywordCandidates store opts.filters opts.query).length -
          opts.offset.getD 0) ∧
    (∀ r ∈ keywordSearchRun store txtSim opts,
      ∃ p ∈ store.products, ilikeAnyField p opts.query = true ∧
        (keywordFilterConditions opts.filters).all (fun cond => cond p) = true ∧
        r.productId = p.id ∧ r.similarity = keywordScore txtSim opts.query p) ∧
    ((keywordSearchRun store txtSim opts).map (·.similarity)).Pairwise
      (fun a b => b ≤ a) := by
  refine ⟨?_, ?_, ?_, ?_, ?_, ?_, ?_, ?_⟩
  · intro p
    simp only [keywordCandidates, List.mem_filter, Bool.and_eq_true, and_assoc]
  · exact perm_sortByDesc _ _
  · exact pairwise_sortByDesc _ _
  · rfl
  · intro e1 he1 e2 he2
    have hs : (keywordRanked store txtSim opts).Pairwise
        (fun a b => b.2 ≤ a.2) := pairwise_sortByDesc _ _
    have hd := hs.sublist (List.drop_sublist (opts.offset.getD 0) _)
    have hsplit := List.take_append_drop (opts.limit.getD 10)
      ((keywordRanked store txtSim opts).drop (opts.offset.getD 0))
    rw [← hsplit] at hd
    have he2' : e2 ∈ List.drop (opts.limit.getD 10)
        ((keywordRanked store txtSim opts).drop (opts.offset.getD 0)) := by
      rw [List.drop_drop]
      exact he2
    exact (List.pairwise_append.mp hd).2.2 e1 he1 e2 he2'
  · simp only [keywordSearchRun, List.length_map, List.length_take,
      List.length_drop, length_sortByDesc]
  · intro r hr
    simp only [keywordSearchRun, List.mem_map] at hr
    obtain ⟨e, he, hre⟩ := hr
    have he1 : e ∈ (sortByDesc (·.2) ((keywordCandidates store opts.filters
        opts.query).map fun p => (p, keywordScore txtSim opts.query p))) :=
      List.mem_of_mem_drop (List.mem_of_mem_take he)
    rw [mem_sortByDesc] at he1
    obtain ⟨p, hp, hpe⟩ := List.mem_map.mp he1
    obtain ⟨hpmem, hpcond⟩ := List.mem_filter.mp hp
    simp only [Bool.and_eq_true] at hpcond
    refine ⟨p, hpmem, hpcond.1, hpcond.2, ?_, ?_⟩
    · rw [← hre, ← hpe]
      rfl
    · rw [← hre, ← hpe]
      rfl
  · have hs : (sortByDesc (·.2) ((keywordCandidates store opts.filters
        opts.query).map fun p => (p, keywordScore txtSim opts.query p))).Pairwise
        (fun a b => b.2 ≤ a.2) := pairwise_sortByDesc _ _
    have hd := hs.sublist (List.drop_sublist (opts.offset.getD 0) _)
    have ht := hd.sublist (List.take_sublist (opts.limit.getD 10) _)
    simp only [keywordSearchRun]
    rw [List.map_map, List.pairwise_map]
    exact ht.imp fun h => h

theorem find?_pid_eq {l : List SearchResult} {pid : String} {r : SearchResult}
    (h : l.find? (fun x => x.productId == pid) = some r) : r.productId = pid := by
  simpa using List.find?_some h

/-- When every fused score entry resolves in the result map, the
materialization step is a plain map: ids and scores carry over one-to-one. -/
theorem fuseMaterialize (rm : List (String × SearchResult)) :
    ∀ entries : List (String × ℚ),
      (∀ e ∈ entries, ∃ r, assocLookup rm e.1 = some r ∧ r.productId = e.1) →
      ((entries.filterMap fun e => (assocLookup rm e.1).map
          fun r => { r with similarity := e.2 }).map (·.productId) =
        entries.map (·.1) ∧
      (entries.filterMap fun e => (assocLookup rm e.1).map
          fun r => { r with similarity := e.2 }).map (·.similarity) =
        entries.map (·.2) ∧
      (entries.filterMap fun e => (assocLookup rm e.1).map
          fun r => { r with similarity := e.2 }).length = entries.length ∧
      ∀ r' ∈ (entries.filterMap fun e => (assocLookup rm e.1).map
          fun r => { r with similarity := e.2 }),
        ∃ e ∈ entries, r'.productId = e.1 ∧ r'.similarity = e.2)
  | [], _ => ⟨rfl, rfl, rfl, by intro r hr; cases hr⟩
  | e :: t, h => by
    obtain ⟨r, hr, hrid⟩ := h e (List.mem_cons_self e t)
    have ih := fuseMaterialize rm t fun x hx => h x (List.mem_cons_of_mem e hx)
    simp only [List.filterMap_cons, hr, Option.map_some', List.map_cons]
    refine ⟨?_, ?_, ?_, ?_⟩
    · rw [ih.1]
      show r.productId :: _ = e.1 :: _
      rw [hrid]
    · rw [ih.2.1]
    · simp only [List.length_cons, ih.2.2.1]
    · intro r' hr'
      rcases List.mem_cons.mp hr' with rfl | hr''
      · exact ⟨e, List.mem_cons_self e t, hrid, rfl⟩
      · obtain ⟨e', he', h1, h2⟩ := ih.2.2.2 r' hr''
        exact ⟨e', List.mem_cons_of_mem e he', h1, h2⟩

/-- C5: the hybrid fusion runs over the union of the two retrievers'
product sets; each candidate's fused score is
`vectorComponent × vectorWeight + lexicalComponent × keywordWeight` with a
missing side contributing 0 (the product is still a candidate); and the
output is the candidate list sorted descending by fused score and
truncated to `limit`. -/
theorem C5_hybrid_fusion (vec kw : List SearchResult) (vw kwW : ℚ) (limit : Nat)
    (hv : (vec.map (·.productId)).Nodup) (hk : (kw.map (·.productId)).Nodup) :
    (∀ pid, (assocLookup (fusedState vec kw vw kwW).1 pid).isSome ↔
      (pid ∈ vec.map (·.productId) ∨ pid ∈ kw.map (·.productId))) ∧
    (∀ pid s, assocLookup (fusedState vec kw vw kwW).1 pid = some s →
      s = (lookupSim vec pid).getD 0 * vw + (lookupSim kw pid).getD 0 * kwW) ∧
    (fuseResults vec kw vw kwW limit).map (·.productId) =
      ((sortByDesc (·.2) (fusedState vec kw vw kwW).1).take limit).map (·.1) ∧
    ((fuseResults vec kw vw kwW limit).map (·.similarity)).Pairwise
      (fun a b => b ≤ a) ∧
    (fuseResults vec kw vw kwW limit).length =
      min limit (fusedState vec kw vw kwW).1.length ∧
    (∀ r ∈ fuseResults vec kw vw kwW limit,
      r.similarity = (lookupSim vec r.productId).getD 0 * vw +
        (lookupSim kw r.productId).getD 0 * kwW) := by
  have hmemiff : ∀ pid, (assocLookup (fusedState vec kw vw kwW).1 pid).isSome ↔
      (pid ∈ vec.map (·.productId) ∨ pid ∈ kw.map (·.productId)) := by
    intro pid
    rw [fusedScores_lookup vec kw vw kwW pid hv hk]
    by_cases h : pid ∈ vec.map (·.productId) ∨ pid ∈ kw.map (·.productId) <;>
      simp [h]
  have hval : ∀ pid s, assocLookup (fusedState vec kw vw kwW).1 pid = some s →
      s = (lookupSim vec pid).getD 0 * vw + (lookupSim kw pid).getD 0 * kwW := by
    intro pid s hs
    rw [fusedScores_lookup vec kw vw kwW pid hv hk] at hs
    by_cases h : pid ∈ vec.map (·.productId) ∨ pid ∈ kw.map (·.productId)
    · rw [if_pos h] at hs
      injection hs with hs
      exact hs.symm
    · rw [if_neg h] at hs
      cases hs
  have hnodup1 : ((fusedState vec kw vw kwW).1.map (·.1)).Nodup := by
    rw [fusedState_fst]
    exact keys_nodup_foldl_set (·.productId) _ kw _
      (keys_nodup_foldl_set (·.productId) _ vec [] (by simp))
  have hrm : ∀ pid, (pid ∈ vec.map (·.productId) ∨ pid ∈ kw.map (·.productId)) →
      ∃ r, assocLookup (fusedState vec kw vw kwW).2 pid = some r ∧
        r.productId = pid := by
    intro pid hmem
    rw [fusedResultMap_lookup vec kw vw kwW pid hv]
    cases hfv : vec.find? (fun x => x.productId == pid) with
    | some r => exact ⟨r, rfl, find?_pid_eq hfv⟩
    | none =>
      have hkmem : pid ∈ kw.map (·.productId) := by
        rcases hmem with h | h
        · rw [← find?_key_isSome_iff (·.productId) vec pid, hfv] at h
          simp at h
        · exact h
      have hks : (kw.find? (fun x => x.productId == pid)).isSome :=
        (find?_key_isSome_iff (·.productId) kw pid).mpr hkmem
      cases hfk : kw.find? (fun x => x.productId == pid) with
      | none =>
        rw [hfk] at hks
        simp at hks
      | some r => exact ⟨r, rfl, find?_pid_eq hfk⟩
  have hall : ∀ e ∈ (sortByDesc (·.2) (fusedState vec kw vw kwW).1).take limit,
      ∃ r, assocLookup (fusedState vec kw vw kwW).2 e.1 = some r ∧
        r.productId = e.1 := by
    intro e he
    have hmem1 : e ∈ (fusedState vec kw vw kwW).1 :=
      (mem_sortByDesc _ _ _).mp (List.mem_of_mem_take he)
    have hlk : assocLookup (fusedState vec kw vw kwW).1 e.1 = some e.2 := by
      cases e with
      | mk k v => exact assocLookup_of_mem_nodupKeys _ _ _ hnodup1 hmem1
    exact hrm e.1 ((hmemiff e.1).mp (by rw [hlk]; rfl))
  have hmat := fuseMaterialize (fusedState vec kw vw kwW).2
    ((sortByDesc (·.2) (fusedState vec kw vw kwW).1).take limit) hall
  have hout : fuseResults vec kw vw kwW limit =
      ((sortByDesc (·.2) (fusedState vec kw vw kwW).1).take limit).filterMap
        fun e => (assocLookup (fusedState vec kw vw kwW).2 e.1).map
          fun r => { r with similarity := e.2 } := rfl
  refine ⟨hmemiff, hval, ?_, ?_, ?_, ?_⟩
  · rw [hout, hmat.1]
  · rw [hout, hmat.2.1, List.pairwise_map]
    exact ((pairwise_sortByDesc (·.2) (fusedState vec kw vw kwW).1).sublist
      (List.take_sublist limit _)).imp fun h => h
  · rw [hout, hmat.2.2.1, List.length_take, length_sortByDesc]
  · intro r hr
    rw [hout] at hr
    obtain ⟨e, he, h1, h2⟩ := hmat.2.2.2 r hr
    have hmem1 : e ∈ (fusedState vec kw vw kwW).1 :=
      (mem_sortByDesc _ _ _).mp (List.mem_of_mem_take he)
    have hlk : assocLookup (fusedState vec kw vw kwW).1 e.1 = some e.2 := by
      cases e with
      | mk k v => exact assocLookup_of_mem_nodupKeys _ _ _ hnodup1 hmem1
    rw [h1, h2]
    exact hval e.1 e.2 hlk

/-- C5 witness: vector score 0.8, lexical score 0.4, weights 0.7/0.3 give
the fused score 0.68 = 17/25, as the claim's concrete example states. -/
theorem C5_witness :
    (17 / 25 : ℚ) = (lookupSim vecResC5 "p").getD 0 * (7 / 10) +
      (lookupSim kwResC5 "p").getD 0 * (3 / 10) ∧
    (fuseResults vecResC5 kwResC5 (7 / 10) (3 / 10) 10).map
      (fun r => (r.productId, r.similarity)) = [("p", 17 / 25)] :=
  ⟨(C5_hybrid_fusion vecResC5 kwResC5 (7 / 10) (3 / 10) 10 (by decide)
      (by decide)).2.1 "p" (17 / 25) (by decide),
   by decide⟩

end M42
